import Mathlib

/-!
Verification development for the flash-ai repository.

This file gives a shallow embedding, in Lean 4, of the parts of the Go
source that the claims C1-C10 are about:

* the Job Manager (`internal/models/models.go`): `CreateJob`,
  `MarkProcessing`, `MarkCompleted`, `MarkFailed`, `MarkFileStarted`,
  `UpdateFileProgress`, `MarkFileComplete`, `MarkFileError`, `withJob`,
  `file`, `clone`, `percent`;
* the upload-job orchestration loop (`runUploadJob` in the api package);
* the Analysis Client retry loop (`AnalyzeMultipleImages` of
  `ZAIVisionService` in `internal/services`);
* the Batch Analysis Engine (batching, concurrent dispatch and
  order-preserving aggregation in `extractExamTopicsWithVisionAndProgress`
  and `generateFlashcardsWithVisionAndProgress`).

Modelling conventions, used throughout:

* Go strings are Lean `String`s; `strings.TrimSpace` is modelled by the
  executable `trimSpace` below (ASCII whitespace, both ends), because the
  Go ingestion code only ever trims ASCII messages.
* Go `int` is modelled as `Int`.  The single floating-point expression in
  the modelled code, `int((float64(current)/float64(total))*100)` in
  `percent`, is modelled exactly: `floatPercent` below performs each of the
  three IEEE-754 double-precision operations Go executes (two int-to-double
  conversions, one division, one multiplication by the exactly representable
  100.0) as correct rounding to the 53-bit binary grid with ties to even,
  followed by Go's truncation toward zero.  Every value reached is positive
  and far inside the normal double range (the guards force
  `0 < current < total`), so subnormals, infinities and signed zeros cannot
  arise and are not modelled.
* `time.Now()` is modelled by passing the current instant as an explicit
  `Nat` parameter `now`.
* The `JobManager`'s `map[string]*UploadJob` plus mutex is concurrency
  plumbing: every operation looks up one job and mutates it under the lock.
  Operations are therefore modelled as pure functions `UploadJob → UploadJob`
  on the job that the lookup found (an absent id makes every operation a
  no-op, which no claim is about).
-/

/-- Go `strings.TrimSpace`, restricted to ASCII whitespace, modelled
executably so that concrete runs reduce by `decide`. -/
def isSpaceChar (c : Char) : Bool :=
  c = ' ' || c = '\t' || c = '\n' || c = '\r'

/-- Trim whitespace from both ends of a string (model of `strings.TrimSpace`). -/
def trimSpace (s : String) : String :=
  String.mk (((s.toList.dropWhile isSpaceChar).reverse.dropWhile isSpaceChar).reverse)

/-- Status constants from `internal/models/models.go`. -/
def JobStatusPending : String := "pending"

def JobStatusProcessing : String := "processing"

def JobStatusComplete : String := "complete"

def JobStatusFailed : String := "failed"

def FileStatusPending : String := "pending"

def FileStatusProcessing : String := "processing"

def FileStatusComplete : String := "complete"

def FileStatusError : String := "error"

/-- `DocumentResult` from `internal/models/models.go` (the `Payload
interface{}` field is modelled as an opaque string payload, which is all the
claims need: it is only ever stored and copied). -/
structure DocumentResult where
  documentID : Int
  name : String
  pages : Int
  status : String
  message : String
  payload : String
  deriving Repr, DecidableEq

/-- `FileProgress` from `internal/models/models.go`. -/
structure FileProgress where
  index : Nat
  name : String
  status : String
  step : String
  message : String
  current : Int
  total : Int
  percent : Int
  result : Option DocumentResult
  error : String
  deriving Repr, DecidableEq

/-- `UploadJob` from `internal/models/models.go`. -/
structure UploadJob where
  id : String
  status : String
  createdAt : Nat
  updatedAt : Nat
  files : List FileProgress
  results : List DocumentResult
  error : String
  deriving Repr, DecidableEq

/-- Bit length helper: `natLog2Fuel fuel n` is `⌊log2 n⌋` whenever
`1 ≤ n ≤ fuel` (the fuel only makes the recursion structural, so that the
kernel can evaluate it). -/
def natLog2Fuel : Nat → Nat → Nat
  | 0, _ => 0
  | fuel + 1, n => if 2 ≤ n then natLog2Fuel fuel (n / 2) + 1 else 0

/-- `⌊log2 n⌋` for `n ≥ 1`. -/
def natLog2 (n : Nat) : Nat := natLog2Fuel n n

/-- The rational value `2 ^ e` for a signed exponent, kept executable. -/
def pow2 (e : Int) : ℚ :=
  if 0 ≤ e then ((2 ^ e.toNat : Nat) : ℚ) else 1 / ((2 ^ (-e).toNat : Nat) : ℚ)

/-- Decides `2 ^ k ≤ a / b` by cross-multiplication. -/
def pow2le (k : Int) (a b : Nat) : Bool :=
  if 0 ≤ k then decide (b * 2 ^ k.toNat ≤ a) else decide (b ≤ a * 2 ^ (-k).toNat)

/-- `⌊log2 (a / b)⌋` for positive naturals: the candidate
`⌊log2 a⌋ - ⌊log2 b⌋` is the answer or one too large, which one probe
settles (`a ∈ [2^α, 2^(α+1))` and `b ∈ [2^β, 2^(β+1))` bracket `a/b` in
`(2^(α-β-1), 2^(α-β+1))`). -/
def floorLog2 (a b : Nat) : Int :=
  let k : Int := (natLog2 a : Int) - (natLog2 b : Int)
  if pow2le k a b then k else k - 1

/-- The nearest integer to `A / B`, ties to the even integer: the rounding
step of IEEE-754 round-to-nearest-even once the value is scaled onto the
significand grid. -/
def roundNearestEvenDiv (A B : Nat) : Nat :=
  let m0 := A / B
  let r := A % B
  if 2 * r < B then m0
  else if B < 2 * r then m0 + 1
  else if m0 % 2 = 0 then m0 else m0 + 1

/-- Round the positive rational `a / b` to the nearest IEEE-754 double
(binary64, round-to-nearest-even), returned as significand and exponent
`(m, e)` with value `m * 2 ^ e`: with `e = ⌊log2 (a/b)⌋ - 52` the scaled
value `a/b / 2^e` lies in `[2^52, 2^53)` and is rounded to the nearest
(ties-even) integer — exactly the IEEE rounding for the normal range. -/
def roundFrac (a b : Nat) : Nat × Int :=
  let e := floorLog2 a b - 52
  let A := if 0 ≤ e then a else a * 2 ^ (-e).toNat
  let B := if 0 ≤ e then b * 2 ^ e.toNat else b
  (roundNearestEvenDiv A B, e)

/-- The exact quotient of two doubles `(m1·2^e1) / (m2·2^e2)` as a fraction
of naturals (the value IEEE division rounds). -/
def fracOfDiv (m1 : Nat) (e1 : Int) (m2 : Nat) (e2 : Int) : Nat × Nat :=
  if 0 ≤ e1 - e2 then (m1 * 2 ^ (e1 - e2).toNat, m2)
  else (m1, m2 * 2 ^ (e2 - e1).toNat)

/-- The exact product `(m·2^e) * k` as a fraction of naturals (the value
IEEE multiplication by the exactly representable small integer `k` rounds). -/
def fracOfMul (m : Nat) (e : Int) (k : Nat) : Nat × Nat :=
  if 0 ≤ e then (m * k * 2 ^ e.toNat, 1) else (m * k, 2 ^ (-e).toNat)

/-- `⌊m * 2 ^ e⌋` for a nonnegative double: Go's `int(x)` conversion
truncates toward zero, which on the nonnegative values reached here is the
floor. -/
def floorPos (m : Nat) (e : Int) : Nat :=
  if 0 ≤ e then m * 2 ^ e.toNat else m / 2 ^ (-e).toNat

/-- `int((float64(current) / float64(total)) * 100)` of
`internal/models/models.go`, modelled operation by operation in IEEE-754
double precision: convert each int (correctly rounded for magnitudes beyond
2^53), divide (correctly rounded), multiply by the exact double `100.0`
(correctly rounded), truncate.  Only called with `0 < current < total`. -/
def floatPercent (current total : Int) : Int :=
  let fc := roundFrac current.toNat 1
  let ft := roundFrac total.toNat 1
  let q := fracOfDiv fc.1 fc.2 ft.1 ft.2
  let d := roundFrac q.1 q.2
  let v := fracOfMul d.1 d.2 100
  let p := roundFrac v.1 v.2
  Int.ofNat (floorPos p.1 p.2)

/-- The unit relative rounding error of binary64: one part in `2^52` bounds
the half-ulp error of one correctly rounded operation in the normal range. -/
def eps : ℚ := 1 / 2 ^ 52

/-- The rational value of the double `(m, e)`. -/
def dval (m : Nat) (e : Int) : ℚ := (m : ℚ) * pow2 e

/-- `percent` from `internal/models/models.go`:

```go
func percent(current, total int) int {
    if total <= 0 {
        if current <= 0 { return 0 }
        if current > 100 { return 100 }
        return current
    }
    if current <= 0 { return 0 }
    if current >= total { return 100 }
    return int((float64(current) / float64(total)) * 100)
}
```

The last line is the IEEE-754 double computation modelled by
`floatPercent` (see the header). -/
def percent (current total : Int) : Int :=
  if total ≤ 0 then
    if current ≤ 0 then 0
    else if current > 100 then 100
    else current
  else if current ≤ 0 then 0
  else if current ≥ total then 100
  else floatPercent current total

/-- `(*UploadJob).file` from `internal/models/models.go`: a bounds-checked
lookup, `nil` (here `none`) when the index is out of range. -/
def UploadJob.fileSlot (job : UploadJob) (index : Int) : Option FileProgress :=
  if index < 0 then none else job.files[index.toNat]?

/-- The Go operations mutate `job.Files[index]` through the pointer returned
by `file` when it is non-nil; this helper applies an update function to that
slot and is the identity when `file` returns nil. -/
def UploadJob.modifySlot (job : UploadJob) (index : Int)
    (f : FileProgress → FileProgress) : UploadJob :=
  match job.fileSlot index with
  | none => job
  | some fp => { job with files := job.files.set index.toNat (f fp) }

/-- `(*JobManager).withJob` from `internal/models/models.go`: run the update
under the lock, then refresh `UpdatedAt` to the current time. -/
def withJob (now : Nat) (fn : UploadJob → UploadJob) (job : UploadJob) : UploadJob :=
  { fn job with updatedAt := now }

/-- The per-name slot built by `CreateJob`'s loop: Go zero values for every
field except `Index`, `Name` and `Status`. -/
def initialSlot (i : Nat) (name : String) : FileProgress :=
  { index := i, name := name, status := FileStatusPending, step := "",
    message := "", current := 0, total := 0, percent := 0, result := none,
    error := "" }

/-- `(*JobManager).CreateJob` from `internal/models/models.go` (the job
record as stored in the manager; the returned snapshot is `clone` of it). -/
def CreateJob (id : String) (now : Nat) (fileNames : List String) : UploadJob :=
  { id := id, status := JobStatusPending, createdAt := now, updatedAt := now,
    files := fileNames.enum.map (fun p => initialSlot p.1 p.2),
    results := [], error := "" }

/-- `(*UploadJob).clone` from `internal/models/models.go`: a field-by-field
deep copy (each `FileProgress.Result` pointer is copied to a fresh cell, here
`Option.map id`; the `Files` and `Results` slices are copied element-wise). -/
def UploadJob.clone (job : UploadJob) : UploadJob :=
  { id := job.id, status := job.status, createdAt := job.createdAt,
    updatedAt := job.updatedAt, error := job.error,
    files := job.files.map (fun file =>
      { file with result := file.result.map (fun r => r) }),
    results := job.results.map (fun r => r) }

/-- `(*JobManager).MarkProcessing`. -/
def MarkProcessing (now : Nat) (job : UploadJob) : UploadJob :=
  withJob now (fun job => { job with status := JobStatusProcessing }) job

/-- `(*JobManager).MarkCompleted`. -/
def MarkCompleted (now : Nat) (job : UploadJob) : UploadJob :=
  withJob now (fun job => { job with status := JobStatusComplete }) job

/-- `(*JobManager).MarkFailed`. -/
def MarkFailed (now : Nat) (msg : String) (job : UploadJob) : UploadJob :=
  withJob now (fun job =>
    { job with status := JobStatusFailed, error := trimSpace msg }) job

/-- `(*JobManager).MarkFileStarted`: reset the slot to `processing`, stage
empty, message "Starting", `Current = 0`, `Total = 100`, `Percent = 0`,
error cleared. -/
def MarkFileStarted (now : Nat) (index : Int) (job : UploadJob) : UploadJob :=
  withJob now (fun job => job.modifySlot index (fun file =>
    { file with
        status := FileStatusProcessing, step := "", message := "Starting",
        current := 0, total := 100, percent := 0, error := "" })) job

/-- `(*JobManager).UpdateFileProgress`. -/
def UpdateFileProgress (now : Nat) (index : Int) (step message : String)
    (current total : Int) (job : UploadJob) : UploadJob :=
  withJob now (fun job => job.modifySlot index (fun file =>
    { file with
        status := FileStatusProcessing, step := step, message := message,
        current := current, total := total, percent := percent current total })) job

/-- `(*JobManager).MarkFileComplete`: terminal success mark on the slot, and
an unconditional append of `result` to the job's `Results`. -/
def MarkFileComplete (now : Nat) (index : Int) (result : DocumentResult)
    (job : UploadJob) : UploadJob :=
  withJob now (fun job =>
    let job := job.modifySlot index (fun file =>
      { file with
          status := FileStatusComplete, step := "complete",
          message := "Processing complete", current := 100, total := 100,
          percent := 100, result := some result, error := "" })
    { job with results := job.results ++ [result] }) job

/-- `(*JobManager).MarkFileError`:

```go
msg := strings.TrimSpace(message)
if msg == "" { msg = "processing error" }
m.withJob(id, func(job *UploadJob) {
    if file := job.file(index); file != nil {
        file.Status = FileStatusError; file.Step = "error"
        file.Message = msg; file.Error = msg
        file.Current = 100; file.Total = 100; file.Percent = 100
        file.Result = cloneResult(result)     // copy of result AS SUPPLIED
    }
    result.Status = FileStatusError           // mutates the local copy only
    if result.Message == "" { result.Message = msg }
    job.Results = append(job.Results, result) // appends the mutated copy
})
```

Note the order: the slot receives a copy of `result` before the local copy's
`Status`/`Message` are overwritten, so the slot's attached result keeps the
caller's status, while the appended one is forced to `error`. -/
def MarkFileError (now : Nat) (index : Int) (message : String)
    (result : DocumentResult) (job : UploadJob) : UploadJob :=
  let msg := if trimSpace message = "" then "processing error" else trimSpace message
  withJob now (fun job =>
    let job := job.modifySlot index (fun file =>
      { file with
          status := FileStatusError, step := "error", message := msg,
          error := msg, current := 100, total := 100, percent := 100,
          result := some result })
    let appended :=
      { result with
          status := FileStatusError,
          message := if result.message = "" then msg else result.message }
    { job with results := job.results ++ [appended] }) job

/-! ## Upload-job orchestration (`runUploadJob`, api package)

`runUploadJob` marks the job processing, then for each file (in upload
order) marks the file started, lets `processDocument` report progress
through the callback, and records exactly one terminal mark — `MarkFileError`
on failure (with the error message and the best-effort partial result) or
`MarkFileComplete` on success — and finally marks the job completed.  It
never calls `MarkFailed` from the per-file loop.  `processDocument` itself
is abstracted by the list of progress updates it emits and its final
outcome. -/

/-- One `progress(step, message, current, total)` callback invocation. -/
structure ProgressUpdate where
  step : String
  message : String
  current : Int
  total : Int
  deriving Repr, DecidableEq

/-- The observable behaviour of `processDocument` for one file: the progress
updates it emits, then either an error (message and partial result) or a
successful result. -/
structure FileOutcome where
  updates : List ProgressUpdate
  outcome : Except (String × DocumentResult) DocumentResult
  deriving Repr

/-- The `progress` closure of `runUploadJob`, applied to each recorded
callback invocation in order. -/
def applyUpdates (now : Nat) (idx : Int) (updates : List ProgressUpdate)
    (job : UploadJob) : UploadJob :=
  updates.foldl
    (fun j u => UpdateFileProgress now idx u.step u.message u.current u.total j) job

/-- The `for idx, file := range files` body of `runUploadJob`, starting at
file position `idx`. -/
def uploadLoop (now : Nat) : Nat → List FileOutcome → UploadJob → UploadJob
  | _, [], job => job
  | idx, o :: rest, job =>
    let job := MarkFileStarted now (Int.ofNat idx) job
    let job := applyUpdates now (Int.ofNat idx) o.updates job
    let job :=
      match o.outcome with
      | .error e => MarkFileError now (Int.ofNat idx) e.1 e.2 job
      | .ok res => MarkFileComplete now (Int.ofNat idx) res job
    uploadLoop now (idx + 1) rest job

/-- `(*Server).runUploadJob` from the api package: `MarkProcessing`, the
per-file loop, then `MarkCompleted` — unconditionally, whatever the per-file
outcomes were. -/
def runUploadJob (now : Nat) (outcomes : List FileOutcome) (job : UploadJob) :
    UploadJob :=
  MarkCompleted now (uploadLoop now 0 outcomes (MarkProcessing now job))

/-! ## Analysis Client retry loop (`AnalyzeMultipleImages`,
`internal/services/concepts.go`)

The remote endpoint is modelled as a function from the attempt number to
the outcome of that HTTP exchange.  One attempt either fails in transport
(request creation, `httpClient.Do`, or reading the body) or yields a
response with a status code and — when the body unmarshals — the list of
choice contents. -/

/-- An HTTP response from the vision endpoint: its status code, and
`some contents` when the body unmarshals into a `VisionResponse` whose
choices have the given message contents (`none` models an unmarshal
failure). -/
structure VisionHTTPResponse where
  status : Nat
  choices : Option (List String)
  deriving Repr, DecidableEq

/-- Outcome of one remote exchange. -/
inductive CallResult where
  | transportError
  | response (r : VisionHTTPResponse)
  deriving Repr, DecidableEq

/-- What the loop body does with one attempt's outcome. -/
inductive StepResult where
  | success (text : String)
  | fatal
  | retriable
  deriving Repr, DecidableEq

/-- The body of the retry loop in `AnalyzeMultipleImages`, after the remote
exchange: a non-200 status in [400,500) returns the error immediately
(`fatal`); any other non-200 status, a transport error, an unmarshal
failure, an empty choice list, or empty content sets `lastErr` and
continues (`retriable`); otherwise the first choice's content is returned
(`success`). -/
def attemptStep (c : CallResult) : StepResult :=
  match c with
  | .transportError => .retriable
  | .response r =>
    if r.status ≠ 200 then
      if 400 ≤ r.status ∧ r.status < 500 then .fatal else .retriable
    else
      match r.choices with
      | none => .retriable
      | some [] => .retriable
      | some (content :: _) => if content = "" then .retriable else .success content

/-- `maxRetries := 2` in `AnalyzeMultipleImages`. -/
def maxRetries : Nat := 2

/-- The retry loop from attempt number `attempt`, with `remaining` loop
iterations left (`remaining = maxRetries + 1 - attempt` at every call).
Returns the result (`some text` on success, `none` when the call failed
terminally or all attempts were exhausted), the number of remote calls
made, and the list of back-off sleeps, in seconds, in the order they were
performed (`time.Sleep(attempt * 2 * time.Second)` before each retry). -/
def attemptsFrom (remote : Nat → CallResult) (attempt : Nat) :
    Nat → Option String × Nat × List Nat
  | 0 => (none, 0, [])
  | remaining + 1 =>
    let sleeps : List Nat := if attempt = 0 then [] else [attempt * 2]
    match attemptStep (remote attempt) with
    | .success text => (some text, 1, sleeps)
    | .fatal => (none, 1, sleeps)
    | .retriable =>
      let r := attemptsFrom remote (attempt + 1) remaining
      (r.1, r.2.1 + 1, sleeps ++ r.2.2)

/-- `(*ZAIVisionService).AnalyzeMultipleImages`, abstracted over the remote
endpoint's behaviour: the loop `for attempt := 0; attempt <= maxRetries;
attempt++`. -/
def AnalyzeMultipleImages (remote : Nat → CallResult) :
    Option String × Nat × List Nat :=
  attemptsFrom remote 0 (maxRetries + 1)

/-! ## Batch Analysis Engine (`extractExamTopicsWithVisionAndProgress` and
`generateFlashcardsWithVisionAndProgress`, ai-service file)

Both functions build batches with the same loop (`for i := 0; i <
len(pages); i += batchSize`), differing only in `batchSize` (8 for topic
extraction, 2 for flashcard extraction), then run one task per batch which
writes its formatted result into `results[idx]` — indexed by batch
position, not completion order — and finally collect `results` in batch
order, aborting on the first error. -/

/-- `PDFPageImage` (pdf service): a 1-based page number and the rendered
image's data URI. -/
structure PDFPageImage where
  pageNumber : Nat
  imageData : String
  deriving Repr, DecidableEq

/-- The local `batch` struct of both vision functions.  The Go field `end`
is a Lean keyword and is rendered `endIdx`. -/
structure Batch where
  start : Nat
  endIdx : Nat
  pages : List PDFPageImage
  imageURIs : List String
  pageNumbers : List Nat
  deriving Repr, DecidableEq

/-- `batchSize := 8` in `extractExamTopicsWithVisionAndProgress`. -/
def topicBatchSize : Nat := 8

/-- `batchSize := 2` in `generateFlashcardsWithVisionAndProgress`. -/
def flashcardBatchSize : Nat := 2

/-- One iteration of the batch-building loop at index `i`:
`end = min(i+batchSize, len(pages))`, `batchPages = pages[i:end]`, and the
projected `imageURIs` / `pageNumbers`. -/
def mkBatch (i : Nat) (batchPages : List PDFPageImage) : Batch :=
  { start := i + 1, endIdx := i + batchPages.length, pages := batchPages,
    imageURIs := batchPages.map (fun p => p.imageData),
    pageNumbers := batchPages.map (fun p => p.pageNumber) }

/-- The batch-building loop, with `i` the number of pages already consumed
and the remaining pages as the list argument.  For `batchSize ≥ 1` this is
exactly the Go loop `for i := 0; i < len(pages); i += batchSize`.  The
`fuel` argument only makes the recursion structural (so that concrete runs
reduce inside the kernel); it is called with the page count, which always
suffices because every iteration consumes at least one page. -/
def makeBatchesFrom (batchSize : Nat) : Nat → Nat → List PDFPageImage → List Batch
  | _, _, [] => []
  | 0, _, _ => []
  | fuel + 1, i, p :: rest =>
    let batchPages := p :: rest.take (batchSize - 1)
    mkBatch i batchPages ::
      makeBatchesFrom batchSize fuel (i + batchPages.length)
        (rest.drop (batchSize - 1))

/-- Partition the page sequence into consecutive batches. -/
def makeBatches (batchSize : Nat) (pages : List PDFPageImage) : List Batch :=
  makeBatchesFrom batchSize pages.length 0 pages

/-- `fmt.Sprintf("Pages %d-%d", bt.pageNumbers[0],
bt.pageNumbers[len(bt.pageNumbers)-1])` wrapped as `"=== %s ==="`.  Batches
built by `makeBatches` always carry a nonempty `pageNumbers`, so the
`headD`/`getLastD` defaults are never consulted. -/
def pageRangeMarker (b : Batch) : String :=
  "=== Pages " ++ toString (b.pageNumbers.headD 0) ++ "-" ++
    toString (b.pageNumbers.getLastD 0) ++ " ==="

/-- `fmt.Sprintf("=== %s ===\n%s", pageRange, analysis)`. -/
def formatBatchResult (b : Batch) (analysis : String) : String :=
  pageRangeMarker b ++ "\n" ++ analysis

/-- The concurrent dispatch with its `results` array: every batch task
writes its formatted analysis into `results[idx]`, its own slot, and the
tasks finish in some interleaving `order` (the list of batch indices in
completion order).  `analysis idx b` is the text `AnalyzeMultipleImages`
returned for batch `b` (the all-success case of claim C1). -/
def runBatchTasks (analysis : Nat → Batch → String) (batches : List Batch)
    (order : List Nat) : List (Option String) :=
  order.foldl
    (fun acc idx =>
      match batches[idx]? with
      | none => acc
      | some b => acc.set idx (some (formatBatchResult b (analysis idx b))))
    (List.replicate batches.length none)

/-- The collection loop after `wg.Wait()`: scan `results` in batch order
and keep the texts; a slot still empty (its task failed or never ran)
aborts the whole run. -/
def collectAnalyses (results : List (Option String)) : Option (List String) :=
  results.foldr
    (fun r acc =>
      match r, acc with
      | some s, some l => some (s :: l)
      | _, _ => none)
    (some [])

/-- `strings.Join(pageAnalyses, "\n\n")` over the collected batch texts:
the combined analysis text of one document, as a function of the batch
size, the interleaving, and the per-batch analysis texts. -/
def combinedAnalysisText (analysis : Nat → Batch → String) (batchSize : Nat)
    (pages : List PDFPageImage) (order : List Nat) : Option String :=
  (collectAnalyses (runBatchTasks analysis (makeBatches batchSize pages) order)).map
    (String.intercalate "\n\n")

/-! ## Auxiliary definitions for the statements -/

/-- Modelled from the spec: the spec's percentage formula for a file
progress slot reads "round(100 * current/total)"; for positive inputs,
rounding half away from zero is `⌊(200c + t) / (2t)⌋`.  This definition
follows the spec's words and exists only to be compared with `percent`,
which is translated from the source. -/
def specRoundedPercent (current total : Int) : Int :=
  (200 * current + total) / (2 * total)

/-- The document result appended to `job.Results` by `MarkFileError`: the
supplied result with its status forced to `error` and its message defaulted
(to the slot message) when empty. -/
def appendedErrorResult (message : String) (result : DocumentResult) : DocumentResult :=
  let msg := if trimSpace message = "" then "processing error" else trimSpace message
  { result with
      status := FileStatusError,
      message := if result.message = "" then msg else result.message }

/-- A concrete document result used by the closed witness and
counterexample theorems.  Its status is the success status `"ok"` that
`processDocument` assigns, so it is visibly not `error`. -/
def sampleResult : DocumentResult :=
  { documentID := 7, name := "doc.pdf", pages := 3, status := "ok",
    message := "", payload := "" }

/-- A concrete five-page document used by the closed witnesses for the
batching claims. -/
def samplePages : List PDFPageImage :=
  [⟨1, "u1"⟩, ⟨2, "u2"⟩, ⟨3, "u3"⟩, ⟨4, "u4"⟩, ⟨5, "u5"⟩]

/-! ## Helper lemmas about the Job Manager operations -/

theorem withJob_files (now : Nat) (fn : UploadJob → UploadJob) (job : UploadJob) :
    (withJob now fn job).files = (fn job).files := rfl

theorem withJob_updatedAt (now : Nat) (fn : UploadJob → UploadJob) (job : UploadJob) :
    (withJob now fn job).updatedAt = now := rfl

theorem modifySlot_files_length (job : UploadJob) (index : Int)
    (f : FileProgress → FileProgress) :
    (job.modifySlot index f).files.length = job.files.length := by
  unfold UploadJob.modifySlot
  cases h : job.fileSlot index <;> simp

theorem fileSlot_of_valid (job : UploadJob) (index : Int)
    (h0 : 0 ≤ index) (h1 : index.toNat < job.files.length) :
    job.fileSlot index = some (job.files.get ⟨index.toNat, h1⟩) := by
  unfold UploadJob.fileSlot
  rw [if_neg (by omega)]
  exact List.getElem?_eq_getElem h1

theorem fileSlot_of_invalid (job : UploadJob) (index : Int)
    (h : index < 0 ∨ (job.files.length : Int) ≤ index) :
    job.fileSlot index = none := by
  unfold UploadJob.fileSlot
  rcases h with h | h
  · rw [if_pos h]
  · rw [if_neg (by omega)]
    exact List.getElem?_eq_none (by omega)

theorem modifySlot_get_self (job : UploadJob) (index : Int)
    (f : FileProgress → FileProgress)
    (h0 : 0 ≤ index) (h1 : index.toNat < job.files.length) :
    (job.modifySlot index f).files[index.toNat]? =
      some (f (job.files.get ⟨index.toNat, h1⟩)) := by
  unfold UploadJob.modifySlot
  rw [fileSlot_of_valid job index h0 h1]
  simpa using List.getElem?_set_self (l := job.files) (by simpa using h1)

theorem modifySlot_get_other (job : UploadJob) (index : Int)
    (f : FileProgress → FileProgress) (j : Nat) (hj : ¬(0 ≤ index ∧ index.toNat = j)) :
    (job.modifySlot index f).files[j]? = job.files[j]? := by
  unfold UploadJob.modifySlot
  cases h : job.fileSlot index with
  | none => rfl
  | some fp =>
    have hidx : 0 ≤ index := by
      by_contra hneg
      rw [fileSlot_of_invalid job index (Or.inl (by omega))] at h
      exact Option.noConfusion h
    have hne : index.toNat ≠ j := fun he => hj ⟨hidx, he⟩
    simpa using List.getElem?_set_ne (l := job.files) (a := f fp) hne

theorem modifySlot_of_invalid (job : UploadJob) (index : Int)
    (f : FileProgress → FileProgress)
    (h : index < 0 ∨ (job.files.length : Int) ≤ index) :
    job.modifySlot index f = job := by
  unfold UploadJob.modifySlot
  rw [fileSlot_of_invalid job index h]

theorem updateFileProgress_slot (now : Nat) (index : Int) (step message : String)
    (current total : Int) (job : UploadJob)
    (h0 : 0 ≤ index) (h1 : index.toNat < job.files.length) :
    (UpdateFileProgress now index step message current total job).files[index.toNat]? =
      some { job.files.get ⟨index.toNat, h1⟩ with
               status := FileStatusProcessing, step := step, message := message,
               current := current, total := total,
               percent := percent current total } := by
  unfold UpdateFileProgress
  rw [withJob_files]
  exact modifySlot_get_self job index _ h0 h1

theorem markFileStarted_slot (now : Nat) (index : Int) (job : UploadJob)
    (h0 : 0 ≤ index) (h1 : index.toNat < job.files.length) :
    (MarkFileStarted now index job).files[index.toNat]? =
      some { job.files.get ⟨index.toNat, h1⟩ with
               status := FileStatusProcessing, step := "", message := "Starting",
               current := 0, total := 100, percent := 0, error := "" } := by
  unfold MarkFileStarted
  rw [withJob_files]
  exact modifySlot_get_self job index _ h0 h1

theorem markFileComplete_slot (now : Nat) (index : Int) (result : DocumentResult)
    (job : UploadJob)
    (h0 : 0 ≤ index) (h1 : index.toNat < job.files.length) :
    (MarkFileComplete now index result job).files[index.toNat]? =
      some { job.files.get ⟨index.toNat, h1⟩ with
               status := FileStatusComplete, step := "complete",
               message := "Processing complete", current := 100, total := 100,
               percent := 100, result := some result, error := "" } := by
  unfold MarkFileComplete
  rw [withJob_files]
  exact modifySlot_get_self job index _ h0 h1

theorem markFileError_slot (now : Nat) (index : Int) (message : String)
    (result : DocumentResult) (job : UploadJob)
    (h0 : 0 ≤ index) (h1 : index.toNat < job.files.length) :
    (MarkFileError now index message result job).files[index.toNat]? =
      some { job.files.get ⟨index.toNat, h1⟩ with
               status := FileStatusError, step := "error",
               message := if trimSpace message = "" then "processing error"
                          else trimSpace message,
               error := if trimSpace message = "" then "processing error"
                        else trimSpace message,
               current := 100, total := 100, percent := 100,
               result := some result } := by
  unfold MarkFileError
  rw [withJob_files]
  exact modifySlot_get_self job index _ h0 h1

/-! ## Analysis of the IEEE-754 double model

The lemmas below establish that each step of `floatPercent` is a correctly
rounded operation with relative error at most `eps = 2 ^ (-52)` (normal
range), and chain the three rounding errors into the conclusion that the
stored percentage is within one of `⌊100 * current / total⌋` and always in
`[0, 100]`. -/

theorem natLog2Fuel_bounds : ∀ (fuel n : Nat), 1 ≤ n → n ≤ fuel →
    2 ^ natLog2Fuel fuel n ≤ n ∧ n < 2 ^ (natLog2Fuel fuel n + 1) := by
  intro fuel
  induction fuel with
  | zero => intro n h1 h2; omega
  | succ f ih =>
    intro n h1 h2
    rw [natLog2Fuel]
    by_cases h : 2 ≤ n
    · rw [if_pos h]
      obtain ⟨l, u⟩ := ih (n / 2) (by omega) (by omega)
      have e1 : 2 ^ (natLog2Fuel f (n / 2) + 1) = 2 * 2 ^ natLog2Fuel f (n / 2) := by
        ring
      have e2 : 2 ^ (natLog2Fuel f (n / 2) + 1 + 1) =
          2 * 2 ^ (natLog2Fuel f (n / 2) + 1) := by ring
      omega
    · rw [if_neg h]
      constructor
      · simpa using h1
      · simpa using by omega

theorem natLog2_bounds (n : Nat) (h : 1 ≤ n) :
    2 ^ natLog2 n ≤ n ∧ n < 2 ^ (natLog2 n + 1) :=
  natLog2Fuel_bounds n n h (Nat.le_refl n)

theorem pow2_eq_zpow (e : Int) : pow2 e = (2 : ℚ) ^ e := by
  unfold pow2
  split
  · rename_i h
    rw [Nat.cast_pow]
    rw [show ((2 : ℕ) : ℚ) = (2 : ℚ) from rfl]
    rw [← zpow_natCast]
    congr 1
    omega
  · rename_i h
    rw [Nat.cast_pow]
    rw [show ((2 : ℕ) : ℚ) = (2 : ℚ) from rfl]
    rw [← zpow_natCast]
    rw [one_div, ← zpow_neg]
    congr 1
    omega

theorem pow2_pos (e : Int) : 0 < pow2 e := by
  rw [pow2_eq_zpow]
  exact zpow_pos (by norm_num) e

theorem pow2_toNat (e : Int) (h : 0 ≤ e) : ((2 ^ e.toNat : ℕ) : ℚ) = pow2 e := by
  unfold pow2
  rw [if_pos h]

theorem pow2_div (e f : Int) : pow2 e / pow2 f = pow2 (e - f) := by
  rw [pow2_eq_zpow, pow2_eq_zpow, pow2_eq_zpow, ← zpow_sub₀ (by norm_num : (2:ℚ) ≠ 0)]

theorem pow2le_sound (k : Int) (a b : Nat) (h : pow2le k a b = true) :
    (b : ℚ) * pow2 k ≤ a := by
  unfold pow2le at h
  split at h
  · rename_i hk
    have hnat : b * 2 ^ k.toNat ≤ a := of_decide_eq_true h
    rw [← pow2_toNat k hk]
    exact_mod_cast hnat
  · rename_i hk
    have hnat : b ≤ a * 2 ^ (-k).toNat := of_decide_eq_true h
    have h2 : (0:ℚ) < ((2 ^ (-k).toNat : ℕ) : ℚ) := by positivity
    have hcast : (b : ℚ) ≤ (a : ℚ) * ((2 ^ (-k).toNat : ℕ) : ℚ) := by exact_mod_cast hnat
    have hP : pow2 k = 1 / ((2 ^ (-k).toNat : ℕ) : ℚ) := by
      unfold pow2
      rw [if_neg hk]
    rw [hP]
    rw [mul_one_div, div_le_iff h2]
    linarith

theorem floorLog2_le (a b : Nat) (ha : 1 ≤ a) (hb : 1 ≤ b) :
    (b : ℚ) * pow2 (floorLog2 a b) ≤ a := by
  rw [show floorLog2 a b =
      (if pow2le ((natLog2 a : Int) - (natLog2 b : Int)) a b
        then ((natLog2 a : Int) - (natLog2 b : Int))
        else ((natLog2 a : Int) - (natLog2 b : Int)) - 1) from rfl]
  split
  · rename_i h
    exact pow2le_sound _ a b h
  · obtain ⟨hla, _⟩ := natLog2_bounds a ha
    obtain ⟨_, hlb⟩ := natLog2_bounds b hb
    have hcb : (b : ℚ) < ((2 : ℚ)) ^ ((natLog2 b : Int) + 1) := by
      have : (b : ℚ) < ((2 ^ (natLog2 b + 1) : ℕ) : ℚ) := by exact_mod_cast hlb
      calc (b:ℚ) < ((2 ^ (natLog2 b + 1) : ℕ) : ℚ) := this
        _ = (2:ℚ) ^ ((natLog2 b : Int) + 1) := by
            push_cast
            rw [← zpow_natCast]
            congr 1
    have hca : ((2 : ℚ)) ^ (natLog2 a : Int) ≤ a := by
      have : ((2 ^ natLog2 a : ℕ) : ℚ) ≤ a := by exact_mod_cast hla
      calc (2:ℚ) ^ (natLog2 a : Int) = ((2 ^ natLog2 a : ℕ) : ℚ) := by
            rw [Nat.cast_pow, show ((2 : ℕ) : ℚ) = (2 : ℚ) from rfl, ← zpow_natCast]
        _ ≤ a := this
    rw [pow2_eq_zpow]
    have hsplit : (2:ℚ) ^ ((natLog2 a : Int) - (natLog2 b : Int) - 1) =
        (2:ℚ) ^ (natLog2 a : Int) / (2:ℚ) ^ ((natLog2 b : Int) + 1) := by
      rw [← zpow_sub₀ (by norm_num : (2:ℚ) ≠ 0)]
      congr 1
      ring
    rw [hsplit]
    have h2pos : (0:ℚ) < (2:ℚ) ^ ((natLog2 b : Int) + 1) := zpow_pos (by norm_num) _
    rw [mul_div_assoc']
    rw [div_le_iff h2pos]
    calc (b:ℚ) * (2:ℚ) ^ (natLog2 a : Int) ≤
          (2:ℚ) ^ ((natLog2 b : Int) + 1) * (2:ℚ) ^ (natLog2 a : Int) := by
          apply mul_le_mul_of_nonneg_right (le_of_lt hcb)
          positivity
      _ = (2:ℚ) ^ (natLog2 a : Int) * (2:ℚ) ^ ((natLog2 b : Int) + 1) := by ring
      _ ≤ (a:ℚ) * (2:ℚ) ^ ((natLog2 b : Int) + 1) := by
          apply mul_le_mul_of_nonneg_right hca
          positivity

theorem roundNearestEvenDiv_bounds (A B : Nat) (hB : 1 ≤ B) :
    (A : ℚ) / B - 1 / 2 ≤ (roundNearestEvenDiv A B : ℚ) ∧
    (roundNearestEvenDiv A B : ℚ) ≤ (A : ℚ) / B + 1 / 2 := by
  have hBq : (0 : ℚ) < B := by exact_mod_cast hB
  have hmod : B * (A / B) + A % B = A := Nat.div_add_mod A B
  have hr : A % B < B := Nat.mod_lt A (by omega)
  have hQ : (A : ℚ) = B * ((A / B : ℕ) : ℚ) + ((A % B : ℕ) : ℚ) := by
    exact_mod_cast congrArg (Nat.cast : ℕ → ℚ) hmod.symm
  have hx : (A : ℚ) / B = ((A / B : ℕ) : ℚ) + ((A % B : ℕ) : ℚ) / B := by
    rw [hQ]
    field_simp
    ring
  have hrq : ((A % B : ℕ) : ℚ) < B := by exact_mod_cast hr
  have hrq0 : (0 : ℚ) ≤ ((A % B : ℕ) : ℚ) := by positivity
  rw [show roundNearestEvenDiv A B =
      (if 2 * (A % B) < B then A / B
       else if B < 2 * (A % B) then A / B + 1
       else if (A / B) % 2 = 0 then A / B else A / B + 1) from rfl]
  split
  · rename_i hc
    have hcq : 2 * ((A % B : ℕ) : ℚ) < B := by exact_mod_cast hc
    constructor
    · rw [hx]
      have : ((A % B : ℕ) : ℚ) / B ≤ 1 / 2 := by
        rw [div_le_div_iff hBq (by norm_num)]
        linarith
      linarith
    · rw [hx]
      have : (0 : ℚ) ≤ ((A % B : ℕ) : ℚ) / B := by positivity
      linarith
  · rename_i hc
    split
    · rename_i hc2
      have hcq : (B : ℚ) < 2 * ((A % B : ℕ) : ℚ) := by exact_mod_cast hc2
      have h1 : 1 / 2 ≤ ((A % B : ℕ) : ℚ) / B := by
        rw [div_le_div_iff (by norm_num) hBq]
        linarith
      have h2 : ((A % B : ℕ) : ℚ) / B < 1 := by
        rw [div_lt_one hBq]
        exact hrq
      push_cast
      constructor
      · rw [hx]; linarith
      · rw [hx]; linarith
    · rename_i hc2
      have hcq : 2 * ((A % B : ℕ) : ℚ) = B := by
        have : 2 * (A % B) = B := by omega
        exact_mod_cast this
      have hhalf : ((A % B : ℕ) : ℚ) / B = 1 / 2 := by
        rw [div_eq_div_iff (by positivity) (by norm_num : (2:ℚ) ≠ 0)]
        linarith
      split
      · constructor
        · rw [hx, hhalf]; linarith
        · rw [hx, hhalf]; linarith
      · push_cast
        constructor
        · rw [hx, hhalf]; linarith
        · rw [hx, hhalf]; linarith

theorem eps_pos : (0 : ℚ) < eps := by
  unfold eps
  positivity

theorem pow2_52 : pow2 52 = (2 : ℚ) ^ (52 : ℕ) := by
  rw [pow2_eq_zpow, ← zpow_natCast]
  congr 1

theorem roundFrac_bounds (a b : Nat) (ha : 1 ≤ a) (hb : 1 ≤ b) :
    ((a : ℚ) / b) * (1 - eps) ≤ dval (roundFrac a b).1 (roundFrac a b).2 ∧
    dval (roundFrac a b).1 (roundFrac a b).2 ≤ ((a : ℚ) / b) * (1 + eps) := by
  have hbq : (0 : ℚ) < b := by exact_mod_cast hb
  have haq : (0 : ℚ) < a := by exact_mod_cast ha
  have hq0 : (0 : ℚ) < (a : ℚ) / b := by positivity
  set q : ℚ := (a : ℚ) / b with hqdef
  set k : Int := floorLog2 a b with hkdef
  set e : Int := k - 52 with hedef
  set A : Nat := (if 0 ≤ e then a else a * 2 ^ (-e).toNat) with hAdef
  set B : Nat := (if 0 ≤ e then b * 2 ^ e.toNat else b) with hBdef
  have hrf : roundFrac a b = (roundNearestEvenDiv A B, e) := rfl
  have hB1 : 1 ≤ B := by
    rw [hBdef]
    split
    · have h2 := Nat.two_pow_pos e.toNat
      have : 0 < b * 2 ^ e.toNat := Nat.mul_pos (by omega) h2
      omega
    · exact hb
  have hABq : (A : ℚ) / B = q / pow2 e := by
    by_cases h0 : 0 ≤ e
    · rw [hAdef, hBdef, if_pos h0, if_pos h0, ← pow2_toNat e h0, hqdef]
      push_cast
      rw [div_div]
    · rw [hAdef, hBdef, if_neg h0, if_neg h0, hqdef]
      have hpe : pow2 e = 1 / ((2 ^ (-e).toNat : ℕ) : ℚ) := by
        unfold pow2
        rw [if_neg h0]
      rw [hpe]
      have hp2 : (0 : ℚ) < ((2 ^ (-e).toNat : ℕ) : ℚ) := by positivity
      push_cast
      field_simp
  obtain ⟨hlo, hhi⟩ := roundNearestEvenDiv_bounds A B hB1
  have hPpos := pow2_pos e
  have hself : dval (roundFrac a b).1 (roundFrac a b).2 =
      ((roundNearestEvenDiv A B : ℕ) : ℚ) * pow2 e := by
    rw [hrf]
    rfl
  have h1 : (q / pow2 e - 1 / 2) * pow2 e ≤
      ((roundNearestEvenDiv A B : ℕ) : ℚ) * pow2 e := by
    apply mul_le_mul_of_nonneg_right _ hPpos.le
    rw [← hABq]
    exact hlo
  have h2 : ((roundNearestEvenDiv A B : ℕ) : ℚ) * pow2 e ≤
      (q / pow2 e + 1 / 2) * pow2 e := by
    apply mul_le_mul_of_nonneg_right _ hPpos.le
    rw [← hABq]
    exact hhi
  have hsim1 : (q / pow2 e - 1 / 2) * pow2 e = q - pow2 e / 2 := by
    field_simp
    ring
  have hsim2 : (q / pow2 e + 1 / 2) * pow2 e = q + pow2 e / 2 := by
    field_simp
    ring
  have hk_le : pow2 k ≤ q := by
    have hfl := floorLog2_le a b ha hb
    rw [hqdef, le_div_iff hbq]
    calc pow2 k * b = (b : ℚ) * pow2 k := by ring
      _ ≤ a := by rw [hkdef]; exact hfl
  have heps_eq : pow2 e / 2 = pow2 k * (eps / 2) := by
    rw [hedef, ← pow2_div k 52, pow2_52]
    unfold eps
    ring
  have hbound : pow2 e / 2 ≤ q * eps := by
    rw [heps_eq]
    have he2 : (0 : ℚ) < eps / 2 := half_pos eps_pos
    calc pow2 k * (eps / 2) ≤ q * (eps / 2) :=
          mul_le_mul_of_nonneg_right hk_le he2.le
      _ ≤ q * eps := by nlinarith [eps_pos, hq0]
  rw [hself]
  constructor
  · have : q * (1 - eps) ≤ q - pow2 e / 2 := by nlinarith
    linarith [h1, hsim1 ▸ h1]
  · have : q + pow2 e / 2 ≤ q * (1 + eps) := by nlinarith
    linarith [hsim2 ▸ h2]

theorem eps_lt_one : eps < 1 := by
  unfold eps
  norm_num

theorem roundFrac_pos (a b : Nat) (ha : 1 ≤ a) (hb : 1 ≤ b) :
    0 < dval (roundFrac a b).1 (roundFrac a b).2 ∧ 1 ≤ (roundFrac a b).1 := by
  have hbq : (0 : ℚ) < b := by exact_mod_cast hb
  have haq : (0 : ℚ) < a := by exact_mod_cast ha
  have hq0 : (0 : ℚ) < (a : ℚ) / b := by positivity
  have hlo := (roundFrac_bounds a b ha hb).1
  have hpos : 0 < dval (roundFrac a b).1 (roundFrac a b).2 := by
    have h1 : (0 : ℚ) < ((a : ℚ) / b) * (1 - eps) := by
      have := eps_lt_one
      nlinarith
    linarith
  refine ⟨hpos, ?_⟩
  by_contra hm
  have hm0 : (roundFrac a b).1 = 0 := by omega
  rw [dval, hm0] at hpos
  simp at hpos

theorem fracOfDiv_val (m1 : Nat) (e1 : Int) (m2 : Nat) (e2 : Int) (hm2 : 1 ≤ m2) :
    ((fracOfDiv m1 e1 m2 e2).1 : ℚ) / ((fracOfDiv m1 e1 m2 e2).2 : ℚ) =
      dval m1 e1 / dval m2 e2 := by
  have hm2q : (0 : ℚ) < m2 := by exact_mod_cast hm2
  have hp1 := pow2_pos e1
  have hp2 := pow2_pos e2
  unfold fracOfDiv dval
  split
  · rename_i h0
    have hpt : ((2 ^ (e1 - e2).toNat : ℕ) : ℚ) = pow2 (e1 - e2) := pow2_toNat _ h0
    have hsub : pow2 (e1 - e2) = pow2 e1 / pow2 e2 := (pow2_div e1 e2).symm
    push_cast at hpt ⊢
    rw [hpt, hsub]
    rw [eq_div_iff (ne_of_gt (mul_pos hm2q hp2))]
    field_simp
    exact Or.inl (mul_comm _ _)
  · rename_i h0
    have h0' : (0 : Int) ≤ e2 - e1 := by omega
    have hpt : ((2 ^ (e2 - e1).toNat : ℕ) : ℚ) = pow2 (e2 - e1) := pow2_toNat _ h0'
    have hsub : pow2 (e2 - e1) = pow2 e2 / pow2 e1 := (pow2_div e2 e1).symm
    push_cast at hpt ⊢
    rw [hpt, hsub]
    rw [div_eq_div_iff (ne_of_gt (mul_pos hm2q (div_pos hp2 hp1)))
      (ne_of_gt (mul_pos hm2q hp2))]
    field_simp
    ring

theorem fracOfMul_val (m : Nat) (e : Int) (k : Nat) :
    ((fracOfMul m e k).1 : ℚ) / ((fracOfMul m e k).2 : ℚ) = dval m e * k := by
  have hp := pow2_pos e
  unfold fracOfMul dval
  split
  · rename_i h0
    have hpt : ((2 ^ e.toNat : ℕ) : ℚ) = pow2 e := pow2_toNat _ h0
    push_cast at hpt ⊢
    rw [hpt]
    rw [div_one]
    ring
  · rename_i h0
    have hpe : pow2 e = 1 / ((2 ^ (-e).toNat : ℕ) : ℚ) := by
      unfold pow2
      rw [if_neg h0]
    have hp2 : (0 : ℚ) < ((2 ^ (-e).toNat : ℕ) : ℚ) := by positivity
    rw [hpe]
    push_cast at hp2 ⊢
    rw [div_eq_iff (ne_of_gt hp2)]
    field_simp

theorem floorPos_val (m : Nat) (e : Int) :
    ((floorPos m e : ℕ) : ℤ) = ⌊dval m e⌋ := by
  unfold floorPos dval
  split
  · rename_i h0
    have hpt : ((2 ^ e.toNat : ℕ) : ℚ) = pow2 e := pow2_toNat _ h0
    rw [← hpt]
    rw [show ((m : ℚ) * ((2 ^ e.toNat : ℕ) : ℚ)) = (((m * 2 ^ e.toNat : ℕ) : ℚ)) from by
      push_cast; ring]
    rw [Int.floor_natCast]
  · rename_i h0
    have hpe : pow2 e = 1 / ((2 ^ (-e).toNat : ℕ) : ℚ) := by
      unfold pow2
      rw [if_neg h0]
    rw [hpe]
    set n := 2 ^ (-e).toNat with hn
    have hn1 : 1 ≤ n := Nat.one_le_two_pow
    have hnq : (0 : ℚ) < n := by exact_mod_cast hn1
    have hdm : n * (m / n) + m % n = m := Nat.div_add_mod m n
    symm
    rw [Int.floor_eq_iff]
    simp only [Int.cast_natCast]
    constructor
    · rw [mul_one_div, le_div_iff hnq]
      have h1 : n * (m / n) ≤ m := Nat.le.intro hdm
      have h2 : ((n * (m / n) : ℕ) : ℚ) ≤ m := by exact_mod_cast h1
      push_cast at h2
      nlinarith [h2]
    · rw [mul_one_div, div_lt_iff hnq]
      have hr : m % n < n := Nat.mod_lt m (by omega)
      have h1 : m < n * (m / n) + n := by omega
      have h2 : ((m : ℕ) : ℚ) < ((n * (m / n) + n : ℕ) : ℚ) := by exact_mod_cast h1
      push_cast at h2
      nlinarith [h2]

theorem fracOfDiv_num_pos (m1 : Nat) (e1 : Int) (m2 : Nat) (e2 : Int)
    (h : 1 ≤ m1) : 1 ≤ (fracOfDiv m1 e1 m2 e2).1 := by
  unfold fracOfDiv
  split
  · have := Nat.two_pow_pos (e1 - e2).toNat
    exact Nat.one_le_iff_ne_zero.mpr (by positivity)
  · exact h

theorem fracOfDiv_den_pos (m1 : Nat) (e1 : Int) (m2 : Nat) (e2 : Int)
    (h : 1 ≤ m2) : 1 ≤ (fracOfDiv m1 e1 m2 e2).2 := by
  unfold fracOfDiv
  split
  · exact h
  · have := Nat.two_pow_pos (e2 - e1).toNat
    exact Nat.one_le_iff_ne_zero.mpr (by positivity)

theorem fracOfMul_num_pos (m : Nat) (e : Int) (k : Nat) (hm : 1 ≤ m)
    (hk : 1 ≤ k) : 1 ≤ (fracOfMul m e k).1 := by
  unfold fracOfMul
  split
  · have := Nat.two_pow_pos e.toNat
    exact Nat.one_le_iff_ne_zero.mpr (by positivity)
  · exact Nat.one_le_iff_ne_zero.mpr (by positivity)

theorem fracOfMul_den_pos (m : Nat) (e : Int) (k : Nat) :
    1 ≤ (fracOfMul m e k).2 := by
  unfold fracOfMul
  split
  · exact Nat.le_refl 1
  · exact Nat.one_le_two_pow

theorem floor_intCast_div (a b : Int) (hb : 0 < b) :
    ⌊(a : ℚ) / (b : ℚ)⌋ = a / b := by
  have hbq : (0 : ℚ) < b := by exact_mod_cast hb
  have hmod : b * (a / b) + a % b = a := Int.ediv_add_emod a b
  have hr0 : 0 ≤ a % b := Int.emod_nonneg a (by omega)
  have hrb : a % b < b := Int.emod_lt_of_pos a hb
  rw [Int.floor_eq_iff]
  constructor
  · rw [le_div_iff hbq]
    have : ((b * (a / b) : ℤ) : ℚ) ≤ a := by
      have : b * (a / b) ≤ a := by omega
      exact_mod_cast this
    push_cast at this
    nlinarith [this]
  · rw [div_lt_iff hbq]
    have : (a : ℤ) < b * (a / b) + b := by omega
    have hq : ((a : ℤ) : ℚ) < ((b * (a / b) + b : ℤ) : ℚ) := by exact_mod_cast this
    push_cast at hq
    nlinarith [hq]

set_option maxHeartbeats 1000000 in
theorem floatPercent_bounds (c t : Int) (hc : 0 < c) (hct : c < t) :
    0 ≤ floatPercent c t ∧ floatPercent c t ≤ 100 ∧
    100 * c / t - 1 ≤ floatPercent c t ∧ floatPercent c t ≤ 100 * c / t + 1 := by
  have ht : 0 < t := by omega
  have ha0 : 1 ≤ c.toNat := by omega
  have ht0 : 1 ≤ t.toNat := by omega
  have hqc : (0 : ℚ) < (c : ℚ) := by exact_mod_cast hc
  have hqt : (0 : ℚ) < (t : ℚ) := by exact_mod_cast ht
  have hqct : (c : ℚ) < (t : ℚ) := by exact_mod_cast hct
  have hcastc : ((c.toNat : ℕ) : ℚ) = (c : ℚ) := by
    have h := Int.toNat_of_nonneg hc.le
    exact_mod_cast congrArg (fun z : ℤ => (z : ℚ)) h
  have hcastt : ((t.toNat : ℕ) : ℚ) = (t : ℚ) := by
    have h := Int.toNat_of_nonneg ht.le
    exact_mod_cast congrArg (fun z : ℤ => (z : ℚ)) h
  have h1me : (0 : ℚ) < 1 - eps := by linarith [eps_lt_one]
  have h1pe : (0 : ℚ) < 1 + eps := by linarith [eps_pos]
  set fc := roundFrac c.toNat 1 with hfcdef
  set ft := roundFrac t.toNat 1 with hftdef
  obtain ⟨hfc_lo, hfc_hi⟩ := roundFrac_bounds c.toNat 1 ha0 (Nat.le_refl 1)
  obtain ⟨hfc_pos, hfc_m⟩ := roundFrac_pos c.toNat 1 ha0 (Nat.le_refl 1)
  obtain ⟨hft_lo, hft_hi⟩ := roundFrac_bounds t.toNat 1 ht0 (Nat.le_refl 1)
  obtain ⟨hft_pos, hft_m⟩ := roundFrac_pos t.toNat 1 ht0 (Nat.le_refl 1)
  rw [Nat.cast_one, div_one, hcastc] at hfc_lo hfc_hi
  rw [Nat.cast_one, div_one, hcastt] at hft_lo hft_hi
  set Fc := dval fc.1 fc.2 with hFcdef
  set Ft := dval ft.1 ft.2 with hFtdef
  set qf := fracOfDiv fc.1 fc.2 ft.1 ft.2 with hqfdef
  have hq_val : (qf.1 : ℚ) / (qf.2 : ℚ) = Fc / Ft :=
    fracOfDiv_val fc.1 fc.2 ft.1 ft.2 hft_m
  have hq1 : 1 ≤ qf.1 := fracOfDiv_num_pos _ _ _ _ hfc_m
  have hq2 : 1 ≤ qf.2 := fracOfDiv_den_pos _ _ _ _ hft_m
  obtain ⟨hd_lo, hd_hi⟩ := roundFrac_bounds qf.1 qf.2 hq1 hq2
  obtain ⟨hd_pos, hd_m⟩ := roundFrac_pos qf.1 qf.2 hq1 hq2
  rw [hq_val] at hd_lo hd_hi
  set d := roundFrac qf.1 qf.2 with hddef
  set D := dval d.1 d.2 with hDdef
  set vf := fracOfMul d.1 d.2 100 with hvfdef
  have hv_val : (vf.1 : ℚ) / (vf.2 : ℚ) = D * 100 := fracOfMul_val d.1 d.2 100
  have hv1 : 1 ≤ vf.1 := fracOfMul_num_pos _ _ _ hd_m (by norm_num)
  have hv2 : 1 ≤ vf.2 := fracOfMul_den_pos _ _ _
  obtain ⟨hp_lo, hp_hi⟩ := roundFrac_bounds vf.1 vf.2 hv1 hv2
  obtain ⟨hp_pos, hp_m⟩ := roundFrac_pos vf.1 vf.2 hv1 hv2
  rw [hv_val] at hp_lo hp_hi
  set pf := roundFrac vf.1 vf.2 with hpfdef
  set P := dval pf.1 pf.2 with hPdef
  have hres : floatPercent c t = ⌊P⌋ := by
    rw [hPdef, ← floorPos_val pf.1 pf.2]
    rfl
  clear_value P pf vf D d qf Ft Fc ft fc
  have hD_Ft_up : D * Ft ≤ Fc * (1 + eps) := by
    have h := mul_le_mul_of_nonneg_right hd_hi hft_pos.le
    have hr : Fc / Ft * (1 + eps) * Ft = Fc * (1 + eps) := by
      field_simp
    linarith [hr ▸ h]
  have hD_Ft_lo : Fc * (1 - eps) ≤ D * Ft := by
    have h := mul_le_mul_of_nonneg_right hd_lo hft_pos.le
    have hr : Fc / Ft * (1 - eps) * Ft = Fc * (1 - eps) := by
      field_simp
    linarith [hr ▸ h]
  have hS1up : D * ((t : ℚ) * (1 - eps)) ≤ (c : ℚ) * (1 + eps) * (1 + eps) :=
    calc D * ((t : ℚ) * (1 - eps)) ≤ D * Ft :=
          mul_le_mul_of_nonneg_left hft_lo hd_pos.le
      _ ≤ Fc * (1 + eps) := hD_Ft_up
      _ ≤ (c : ℚ) * (1 + eps) * (1 + eps) :=
          mul_le_mul_of_nonneg_right hfc_hi h1pe.le
  have hS1lo : (c : ℚ) * (1 - eps) * (1 - eps) ≤ D * ((t : ℚ) * (1 + eps)) :=
    calc (c : ℚ) * (1 - eps) * (1 - eps) ≤ Fc * (1 - eps) :=
          mul_le_mul_of_nonneg_right hfc_lo h1me.le
      _ ≤ D * Ft := hD_Ft_lo
      _ ≤ D * ((t : ℚ) * (1 + eps)) :=
          mul_le_mul_of_nonneg_left hft_hi hd_pos.le
  have hS2up : P * ((t : ℚ) * (1 - eps)) ≤ 100 * (c : ℚ) * (1 + eps) ^ 3 :=
    calc P * ((t : ℚ) * (1 - eps)) ≤
          D * 100 * (1 + eps) * ((t : ℚ) * (1 - eps)) := by
          apply mul_le_mul_of_nonneg_right hp_hi
          positivity
      _ = 100 * (1 + eps) * (D * ((t : ℚ) * (1 - eps))) := by ring
      _ ≤ 100 * (1 + eps) * ((c : ℚ) * (1 + eps) * (1 + eps)) := by
          apply mul_le_mul_of_nonneg_left hS1up
          positivity
      _ = 100 * (c : ℚ) * (1 + eps) ^ 3 := by ring
  have hS2lo : 100 * (c : ℚ) * (1 - eps) ^ 3 ≤ P * ((t : ℚ) * (1 + eps)) :=
    calc 100 * (c : ℚ) * (1 - eps) ^ 3 =
          100 * (1 - eps) * ((c : ℚ) * (1 - eps) * (1 - eps)) := by ring
      _ ≤ 100 * (1 - eps) * (D * ((t : ℚ) * (1 + eps))) := by
          apply mul_le_mul_of_nonneg_left hS1lo
          positivity
      _ = D * 100 * (1 - eps) * ((t : ℚ) * (1 + eps)) := by ring
      _ ≤ P * ((t : ℚ) * (1 + eps)) := by
          apply mul_le_mul_of_nonneg_right hp_lo
          positivity
  have hK0 : (0 : ℚ) ≤ 100 * (1 + eps) ^ 3 - 100 * (1 - eps) := by
    unfold eps
    norm_num
  have hKle : 100 * (1 + eps) ^ 3 - 100 * (1 - eps) ≤ 1 - eps := by
    unfold eps
    norm_num
  have hK0' : (0 : ℚ) ≤ 100 * (1 + eps) - 100 * (1 - eps) ^ 3 := by
    unfold eps
    norm_num
  have hKle' : 100 * (1 + eps) - 100 * (1 - eps) ^ 3 ≤ 1 + eps := by
    unfold eps
    norm_num
  have hS3up : 100 * (c : ℚ) * (1 + eps) ^ 3 ≤ (100 * (c : ℚ) + t) * (1 - eps) := by
    have h1 : (c : ℚ) * (100 * (1 + eps) ^ 3 - 100 * (1 - eps)) ≤
        (t : ℚ) * (100 * (1 + eps) ^ 3 - 100 * (1 - eps)) :=
      mul_le_mul_of_nonneg_right hqct.le hK0
    have h2 : (t : ℚ) * (100 * (1 + eps) ^ 3 - 100 * (1 - eps)) ≤
        (t : ℚ) * (1 - eps) :=
      mul_le_mul_of_nonneg_left hKle hqt.le
    have e1 : 100 * (c : ℚ) * (1 + eps) ^ 3 =
        100 * (c : ℚ) * (1 - eps) +
          (c : ℚ) * (100 * (1 + eps) ^ 3 - 100 * (1 - eps)) := by ring
    have e2 : (100 * (c : ℚ) + t) * (1 - eps) =
        100 * (c : ℚ) * (1 - eps) + (t : ℚ) * (1 - eps) := by ring
    rw [e1, e2]
    linarith [h1.trans h2]
  have hS3lo : (100 * (c : ℚ) - t) * (1 + eps) ≤ 100 * (c : ℚ) * (1 - eps) ^ 3 := by
    have h1 : (c : ℚ) * (100 * (1 + eps) - 100 * (1 - eps) ^ 3) ≤
        (t : ℚ) * (100 * (1 + eps) - 100 * (1 - eps) ^ 3) :=
      mul_le_mul_of_nonneg_right hqct.le hK0'
    have h2 : (t : ℚ) * (100 * (1 + eps) - 100 * (1 - eps) ^ 3) ≤
        (t : ℚ) * (1 + eps) :=
      mul_le_mul_of_nonneg_left hKle' hqt.le
    have e1 : 100 * (c : ℚ) * (1 - eps) ^ 3 =
        100 * (c : ℚ) * (1 + eps) -
          (c : ℚ) * (100 * (1 + eps) - 100 * (1 - eps) ^ 3) := by ring
    have e2 : (100 * (c : ℚ) - t) * (1 + eps) =
        100 * (c : ℚ) * (1 + eps) - (t : ℚ) * (1 + eps) := by ring
    rw [e1, e2]
    linarith [h1.trans h2]
  have hPt_up : P * (t : ℚ) ≤ 100 * (c : ℚ) + t := by
    have hchain : P * (t : ℚ) * (1 - eps) ≤ (100 * (c : ℚ) + t) * (1 - eps) := by
      calc P * (t : ℚ) * (1 - eps) = P * ((t : ℚ) * (1 - eps)) := by ring
        _ ≤ 100 * (c : ℚ) * (1 + eps) ^ 3 := hS2up
        _ ≤ (100 * (c : ℚ) + t) * (1 - eps) := hS3up
    exact (mul_le_mul_right h1me).mp hchain
  have hPt_lo : 100 * (c : ℚ) - t ≤ P * (t : ℚ) := by
    have hchain : (100 * (c : ℚ) - t) * (1 + eps) ≤ P * (t : ℚ) * (1 + eps) := by
      calc (100 * (c : ℚ) - t) * (1 + eps) ≤ 100 * (c : ℚ) * (1 - eps) ^ 3 := hS3lo
        _ ≤ P * ((t : ℚ) * (1 + eps)) := hS2lo
        _ = P * (t : ℚ) * (1 + eps) := by ring
    exact (mul_le_mul_right h1pe).mp hchain
  have hX : ⌊100 * (c : ℚ) / (t : ℚ)⌋ = 100 * c / t := by
    rw [show (100 * (c : ℚ)) = ((100 * c : ℤ) : ℚ) from by push_cast; ring]
    exact floor_intCast_div (100 * c) t ht
  have hP_le : P ≤ 100 * (c : ℚ) / (t : ℚ) + 1 := by
    rw [show (100 * (c : ℚ) / (t : ℚ) + 1) = (100 * (c : ℚ) + t) / t from by
      field_simp]
    rw [le_div_iff hqt]
    exact hPt_up
  have hP_ge : 100 * (c : ℚ) / (t : ℚ) - 1 ≤ P := by
    rw [show (100 * (c : ℚ) / (t : ℚ) - 1) = (100 * (c : ℚ) - t) / t from by
      field_simp]
    rw [div_le_iff hqt]
    exact hPt_lo
  have hup : floatPercent c t ≤ 100 * c / t + 1 := by
    rw [hres]
    have h1 : ⌊P⌋ ≤ ⌊100 * (c : ℚ) / (t : ℚ) + ((1 : ℤ) : ℚ)⌋ :=
      Int.floor_le_floor (by push_cast; linarith)
    rw [Int.floor_add_int, hX] at h1
    exact h1
  have hlo : 100 * c / t - 1 ≤ floatPercent c t := by
    rw [hres]
    have h1 : ⌊100 * (c : ℚ) / (t : ℚ) - ((1 : ℤ) : ℚ)⌋ ≤ ⌊P⌋ :=
      Int.floor_le_floor (by push_cast; linarith)
    rw [Int.floor_sub_int, hX] at h1
    exact h1
  have hq0_le : 100 * c / t ≤ 99 := by
    have hfl : ⌊100 * (c : ℚ) / (t : ℚ)⌋ < 100 := by
      rw [Int.floor_lt, div_lt_iff hqt]
      push_cast
      nlinarith
    rw [hX] at hfl
    omega
  refine ⟨?_, ?_, hlo, hup⟩
  · rw [hres]
    exact Int.floor_nonneg.mpr hp_pos.le
  · omega

theorem percent_bounds (current total : Int) :
    0 ≤ percent current total ∧ percent current total ≤ 100 := by
  unfold percent
  split
  · split
    · omega
    · split <;> omega
  · split
    · omega
    · split
      · omega
      · rename_i htot hcur hlt
        have h := floatPercent_bounds current total (by omega) (by omega)
        exact ⟨h.1, h.2.1⟩

/-! ## Claim C4: the derived percentage -/

/-- C4, counterexample.  The claim (and the spec) say the non-degenerate
branch computes `round(100 * current/total)`; the double-precision code
does not round: at `current = 2, total = 3` the stored percentage is 66,
while rounding would give 67.  The code does not compute the exact
truncation `⌊100 * current / total⌋` either: at `current = 29, total = 100`
the double product `0.29 * 100` falls just below 29, so the code stores 28
where the exact floor is 29. -/
theorem percent_rounds_cex :
    percent 2 3 = 66 ∧ specRoundedPercent 2 3 = 67 ∧
    percent 2 3 ≠ specRoundedPercent 2 3 ∧
    percent 29 100 = 28 ∧ (100 * 29 / 100 : Int) = 29 ∧
    percent 29 100 ≠ 100 * 29 / 100 ∧
    ((UpdateFileProgress 1 0 "analyze" "working" 2 3
        (CreateJob "j" 0 ["a"])).files[(0 : Nat)]?).map FileProgress.percent =
      some 66 := by
  decide

/-- C4 (amended): the derived percentage is clamped to [0,100]; it is 0 when
`current ≤ 0`, 100 when `0 < total ≤ current`, `current` itself (clamped)
when `total ≤ 0`, and for `0 < current < total` it is the IEEE-754
double-precision value `int((float64(current)/float64(total))*100)` —
neither exact rounding nor exact truncation of `100 * current / total`, but
always within one of the exact truncation `⌊100 * current / total⌋`;
`UpdateFileProgress` on an existing job with a valid index stores exactly
`percent current total` in the slot's `Percent` field, and
`MarkFileComplete` stores 100. -/
theorem percent_clamped_within_one (now : Nat) (index : Int)
    (step message : String) (current total : Int) (job : UploadJob)
    (result : DocumentResult)
    (h0 : 0 ≤ index) (h1 : index.toNat < job.files.length) :
    (0 ≤ percent current total ∧ percent current total ≤ 100) ∧
    (current ≤ 0 → percent current total = 0) ∧
    (0 < total → total ≤ current → percent current total = 100) ∧
    (0 < current → current < total →
      percent current total = floatPercent current total ∧
      100 * current / total - 1 ≤ percent current total ∧
      percent current total ≤ 100 * current / total + 1) ∧
    (total ≤ 0 → 0 < current → current ≤ 100 → percent current total = current) ∧
    ((UpdateFileProgress now index step message current total job).files[index.toNat]?).map
        FileProgress.percent = some (percent current total) ∧
    ((MarkFileComplete now index result job).files[index.toNat]?).map
        FileProgress.percent = some 100 := by
  refine ⟨percent_bounds current total, ?_, ?_, ?_, ?_, ?_, ?_⟩
  · intro h
    unfold percent
    split <;> simp [h]
  · intro ht hc
    unfold percent
    rw [if_neg (by omega), if_neg (by omega), if_pos (by omega)]
  · intro hc hlt
    have heq : percent current total = floatPercent current total := by
      unfold percent
      rw [if_neg (by omega), if_neg (by omega), if_neg (by omega)]
    obtain ⟨hn, hh, hl, hu⟩ := floatPercent_bounds current total hc hlt
    refine ⟨heq, ?_, ?_⟩
    · rw [heq]; exact hl
    · rw [heq]; exact hu
  · intro ht hc hle
    unfold percent
    rw [if_pos ht, if_neg (by omega), if_neg (by omega)]
  · rw [updateFileProgress_slot now index step message current total job h0 h1]
    rfl
  · rw [markFileComplete_slot now index result job h0 h1]
    rfl

/-- C4 witness: the amended theorem applied at `current = 2, total = 3` on a
concrete one-file job, extracting the stored slot value and the
within-one-of-truncation bounds for the interior branch. -/
theorem percent_clamped_within_one_witness :
    ((UpdateFileProgress 1 0 "analyze" "working" 2 3
        (CreateJob "j" 0 ["a"])).files[((0 : Int)).toNat]?).map FileProgress.percent =
      some (percent 2 3) ∧
    100 * 2 / 3 - 1 ≤ percent 2 3 ∧ percent 2 3 ≤ 100 * 2 / 3 + 1 :=
  have h := percent_clamped_within_one 1 0 "analyze" "working" 2 3
    (CreateJob "j" 0 ["a"]) sampleResult (by decide) (by decide)
  ⟨h.2.2.2.2.2.1, (h.2.2.2.1 (by decide) (by decide)).2⟩

/-! ## Claim C8: MarkFileStarted -/

/-- C8, counterexample.  The claim says both progress counters are zeroed;
`MarkFileStarted` in fact sets `Current = 0` but `Total = 100`, as shown on
a concrete one-file job. -/
theorem markFileStarted_total_cex :
    ((MarkFileStarted 1 0 (CreateJob "j" 0 ["a"])).files[(0 : Nat)]?).map
        FileProgress.total = some 100 ∧
    ((MarkFileStarted 1 0 (CreateJob "j" 0 ["a"])).files[(0 : Nat)]?).map
        FileProgress.total ≠ some 0 := by
  decide

/-- C8 (amended): for every existing job and valid file index,
`MarkFileStarted` resets that slot to status `processing` with an empty
stage label, message "Starting", `Current = 0`, `Total = 100` (not zero),
`Percent = 0` and a cleared error, leaving the slot's index and name
unchanged. -/
theorem markFileStarted_resets (now : Nat) (index : Int) (job : UploadJob)
    (h0 : 0 ≤ index) (h1 : index.toNat < job.files.length) :
    (MarkFileStarted now index job).files[index.toNat]? =
      some { index := (job.files.get ⟨index.toNat, h1⟩).index,
             name := (job.files.get ⟨index.toNat, h1⟩).name,
             status := FileStatusProcessing, step := "", message := "Starting",
             current := 0, total := 100, percent := 0,
             result := (job.files.get ⟨index.toNat, h1⟩).result, error := "" } := by
  rw [markFileStarted_slot now index job h0 h1]

/-- C8 witness: the amended theorem applied to a concrete one-file job. -/
theorem markFileStarted_resets_witness :
    (MarkFileStarted 1 0 (CreateJob "j" 0 ["a"])).files[((0 : Int)).toNat]? =
      some { index := 0, name := "a", status := FileStatusProcessing, step := "",
             message := "Starting", current := 0, total := 100, percent := 0,
             result := none, error := "" } := by
  rw [markFileStarted_resets 1 0 (CreateJob "j" 0 ["a"]) (by decide) (by decide)]
  decide

theorem modifySlot_results (job : UploadJob) (index : Int)
    (f : FileProgress → FileProgress) :
    (job.modifySlot index f).results = job.results := by
  unfold UploadJob.modifySlot
  cases h : job.fileSlot index <;> rfl

theorem markFileComplete_results (now : Nat) (index : Int)
    (result : DocumentResult) (job : UploadJob) :
    (MarkFileComplete now index result job).results = job.results ++ [result] := by
  unfold MarkFileComplete withJob
  simp [modifySlot_results]

theorem markFileError_results (now : Nat) (index : Int) (message : String)
    (result : DocumentResult) (job : UploadJob) :
    (MarkFileError now index message result job).results =
      job.results ++ [appendedErrorResult message result] := by
  unfold MarkFileError withJob appendedErrorResult
  simp [modifySlot_results]

/-! ## Claim C9: MarkFileError -/

/-- C9, counterexample.  The claim says the result attached to the slot has
its status forced to `error`; in the code the slot receives a copy of the
result as supplied — `file.Result = cloneResult(result)` runs before
`result.Status = FileStatusError` — so a partial result supplied with
status `"ok"` is attached with status `"ok"`, while the copy appended to
`job.Results` is the one forced to `error`. -/
theorem markFileError_attach_cex :
    (((MarkFileError 1 0 "boom" sampleResult
          (CreateJob "j" 0 ["a"])).files[(0 : Nat)]?).map
        (fun fp => fp.result.map DocumentResult.status)) = some (some "ok") ∧
    "ok" ≠ FileStatusError ∧
    (MarkFileError 1 0 "boom" sampleResult (CreateJob "j" 0 ["a"])).results.map
        DocumentResult.status = [FileStatusError] := by
  decide

/-- C9 (amended): for every existing job and valid file index,
`MarkFileError(jobId, index, message, partialResult)` sets the slot's status
to `error` with the message defaulted to "processing error" when the
trimmed message is empty, attaches to the slot the partial result exactly
as supplied (unmodified), and appends to the job's result sequence a copy
of the partial result with its status forced to `error` and its message
defaulted to the slot message when empty. -/
theorem markFileError_spec (now : Nat) (index : Int) (message : String)
    (result : DocumentResult) (job : UploadJob)
    (h0 : 0 ≤ index) (h1 : index.toNat < job.files.length) :
    (MarkFileError now index message result job).files[index.toNat]? =
      some { job.files.get ⟨index.toNat, h1⟩ with
               status := FileStatusError, step := "error",
               message := if trimSpace message = "" then "processing error"
                          else trimSpace message,
               error := if trimSpace message = "" then "processing error"
                        else trimSpace message,
               current := 100, total := 100, percent := 100,
               result := some result } ∧
    (MarkFileError now index message result job).results =
      job.results ++ [appendedErrorResult message result] := by
  exact ⟨markFileError_slot now index message result job h0 h1,
         markFileError_results now index message result job⟩

/-- C9 witness: the amended theorem applied to a concrete one-file job with
a partial result of status `"ok"` and a trimmed-empty message. -/
theorem markFileError_spec_witness :
    (MarkFileError 1 0 " " sampleResult (CreateJob "j" 0 ["a"])).files[((0 : Int)).toNat]? =
      some { index := 0, name := "a", status := FileStatusError, step := "error",
             message := "processing error", current := 100, total := 100,
             percent := 100, result := some sampleResult,
             error := "processing error" } ∧
    (MarkFileError 1 0 " " sampleResult (CreateJob "j" 0 ["a"])).results =
      [{ sampleResult with status := FileStatusError,
                           message := "processing error" }] := by
  have h := markFileError_spec 1 0 " " sampleResult (CreateJob "j" 0 ["a"])
    (by decide) (by decide)
  exact ⟨by rw [h.1]; decide, by rw [h.2]; decide⟩

/-! ## Claim C10: out-of-range terminal marks -/

/-- C10, counterexample.  With an out-of-range index the slots are indeed
untouched and a result is still appended with `UpdatedAt` refreshed, but
for `MarkFileError` the appended element is not the supplied result: its
status has been forced to `error`, so the claim's "appends the supplied
Document Result" fails at a supplied result of status `"ok"`. -/
theorem out_of_range_append_cex :
    (MarkFileError 9 5 "boom" sampleResult (CreateJob "j" 0 ["a"])).files =
      (CreateJob "j" 0 ["a"]).files ∧
    (MarkFileError 9 5 "boom" sampleResult (CreateJob "j" 0 ["a"])).updatedAt = 9 ∧
    (MarkFileError 9 5 "boom" sampleResult (CreateJob "j" 0 ["a"])).results.length = 1 ∧
    (MarkFileError 9 5 "boom" sampleResult (CreateJob "j" 0 ["a"])).results ≠
      [sampleResult] := by
  decide

/-- C10 (amended): for every existing job, calling `MarkFileComplete` or
`MarkFileError` with an out-of-range file index leaves every File Progress
slot unchanged, yet still appends a Document Result to the job's `Results`
— the supplied result for `MarkFileComplete`, and the supplied result with
status forced to `error` and message defaulted for `MarkFileError` — and
refreshes the job's `UpdatedAt` timestamp: the append is not guarded by
slot validity. -/
theorem out_of_range_append (now : Nat) (index : Int) (message : String)
    (result : DocumentResult) (job : UploadJob)
    (h : index < 0 ∨ (job.files.length : Int) ≤ index) :
    (MarkFileComplete now index result job).files = job.files ∧
    (MarkFileComplete now index result job).results = job.results ++ [result] ∧
    (MarkFileComplete now index result job).updatedAt = now ∧
    (MarkFileError now index message result job).files = job.files ∧
    (MarkFileError now index message result job).results =
      job.results ++ [appendedErrorResult message result] ∧
    (MarkFileError now index message result job).updatedAt = now := by
  refine ⟨?_, markFileComplete_results now index result job, rfl, ?_,
          markFileError_results now index message result job, rfl⟩
  · show (job.modifySlot index _).files = job.files
    rw [modifySlot_of_invalid job index _ h]
  · show (job.modifySlot index _).files = job.files
    rw [modifySlot_of_invalid job index _ h]

/-- C10 witness: the amended theorem applied at index 5 of a one-file job. -/
theorem out_of_range_append_witness :
    (MarkFileComplete 9 5 sampleResult (CreateJob "j" 0 ["a"])).files =
      (CreateJob "j" 0 ["a"]).files ∧
    (MarkFileComplete 9 5 sampleResult (CreateJob "j" 0 ["a"])).results =
      [sampleResult] := by
  have h := out_of_range_append 9 5 "boom" sampleResult (CreateJob "j" 0 ["a"])
    (Or.inr (by decide))
  exact ⟨h.1, by rw [h.2.1]; decide⟩

/-! ## Claim C5: terminality of complete/error slots -/

/-- C5, counterexample.  On a concrete one-file job whose slot has been
marked `complete`, a subsequent `UpdateFileProgress` on that slot moves its
status back to `processing`: terminality is not enforced by the Job
Manager operations. -/
theorem terminal_regression_cex :
    ((MarkFileComplete 1 0 sampleResult (CreateJob "j" 0 ["a"])).files[(0 : Nat)]?).map
        FileProgress.status = some FileStatusComplete ∧
    ((UpdateFileProgress 2 0 "analyze" "working" 1 2
        (MarkFileComplete 1 0 sampleResult
          (CreateJob "j" 0 ["a"]))).files[(0 : Nat)]?).map
        FileProgress.status = some FileStatusProcessing ∧
    FileStatusProcessing ≠ FileStatusComplete ∧
    FileStatusProcessing ≠ FileStatusError := by
  decide

/-- C5 (amended): the Job Manager operations do not enforce terminality:
`UpdateFileProgress` and `MarkFileStarted` on a valid slot set its status to
`processing` regardless of its previous status (in particular they move a
`complete` or `error` slot back to `processing`), while `MarkFileComplete`
and `MarkFileError` always leave the slot in a terminal status.  The
invariant "once `complete` or `error`, terminal" therefore holds only under
the orchestrator's calling discipline (exactly one terminal mark per slot,
issued last), not against arbitrary subsequent operations. -/
theorem terminal_not_enforced (now : Nat) (index : Int)
    (step message msg : String) (current total : Int)
    (result : DocumentResult) (job : UploadJob)
    (h0 : 0 ≤ index) (h1 : index.toNat < job.files.length) :
    ((UpdateFileProgress now index step message current total job).files[index.toNat]?).map
        FileProgress.status = some FileStatusProcessing ∧
    ((MarkFileStarted now index job).files[index.toNat]?).map
        FileProgress.status = some FileStatusProcessing ∧
    ((MarkFileComplete now index result job).files[index.toNat]?).map
        FileProgress.status = some FileStatusComplete ∧
    ((MarkFileError now index msg result job).files[index.toNat]?).map
        FileProgress.status = some FileStatusError := by
  refine ⟨?_, ?_, ?_, ?_⟩
  · rw [updateFileProgress_slot now index step message current total job h0 h1]; rfl
  · rw [markFileStarted_slot now index job h0 h1]; rfl
  · rw [markFileComplete_slot now index result job h0 h1]; rfl
  · rw [markFileError_slot now index msg result job h0 h1]; rfl

/-- C5 witness: the amended theorem applied to a one-file job that has just
been marked complete. -/
theorem terminal_not_enforced_witness :
    ((UpdateFileProgress 2 0 "analyze" "working" 1 2
        (MarkFileComplete 1 0 sampleResult
          (CreateJob "j" 0 ["a"]))).files[((0 : Int)).toNat]?).map
        FileProgress.status = some FileStatusProcessing :=
  (terminal_not_enforced 2 0 "analyze" "working" "m" 1 2 sampleResult
    (MarkFileComplete 1 0 sampleResult (CreateJob "j" 0 ["a"]))
    (by decide) (by decide)).1

/-! ## Claim C7: CreateJob -/

theorem cloneFile_eq (file : FileProgress) :
    ({ file with result := file.result.map (fun r => r) } : FileProgress) = file := by
  cases file with
  | mk a b c d e f g h r i => cases r <;> rfl

theorem clone_eq (job : UploadJob) : job.clone = job := by
  unfold UploadJob.clone
  cases job with
  | mk i s c u fs rs e =>
    simp only [cloneFile_eq, List.map_id']

/-- C7: `CreateJob` with N file names builds exactly N File Progress slots,
one per name in submission order, each with status `pending`, empty stage
and message, all counters (`Current`, `Total`, `Percent`) zero, no result
and no error; and the returned snapshot — `clone` of the stored record —
has exactly the same contents as the stored record (`clone` is
content-preserving, which is what deep-copy independence means in a
functional model: later mutations of the stored record cannot reach the
copy). -/
theorem createJob_snapshot (id : String) (now : Nat) (names : List String) :
    (CreateJob id now names).files =
      names.enum.map (fun p => initialSlot p.1 p.2) ∧
    (CreateJob id now names).files.length = names.length ∧
    (CreateJob id now names).files.map FileProgress.name = names ∧
    (∀ fp ∈ (CreateJob id now names).files,
      fp.status = FileStatusPending ∧ fp.step = "" ∧ fp.message = "" ∧
      fp.current = 0 ∧ fp.total = 0 ∧ fp.percent = 0 ∧ fp.result = none ∧
      fp.error = "") ∧
    (CreateJob id now names).status = JobStatusPending ∧
    (CreateJob id now names).results = [] ∧
    UploadJob.clone (CreateJob id now names) = CreateJob id now names := by
  refine ⟨rfl, by simp [CreateJob], ?_, ?_, rfl, rfl, clone_eq _⟩
  · show (names.enum.map (fun p => initialSlot p.1 p.2)).map FileProgress.name = names
    rw [List.map_map]
    have : (FileProgress.name ∘ fun p : Nat × String => initialSlot p.1 p.2) =
        Prod.snd := by
      funext p
      rfl
    rw [this, List.enum_map_snd]
  · intro fp hfp
    simp only [CreateJob, List.mem_map] at hfp
    obtain ⟨p, hp, rfl⟩ := hfp
    exact ⟨rfl, rfl, rfl, rfl, rfl, rfl, rfl, rfl⟩

/-- C7 witness: the theorem applied to a concrete two-file submission. -/
theorem createJob_snapshot_witness :
    (CreateJob "j" 0 ["a", "b"]).files.length = 2 ∧
    (CreateJob "j" 0 ["a", "b"]).files.map FileProgress.name = ["a", "b"] ∧
    UploadJob.clone (CreateJob "j" 0 ["a", "b"]) = CreateJob "j" 0 ["a", "b"] := by
  have h := createJob_snapshot "j" 0 ["a", "b"]
  exact ⟨h.2.1, h.2.2.1, h.2.2.2.2.2.2⟩

/-! ## Claim C6: per-file errors never fail the job -/

theorem markFileStarted_files_length (now : Nat) (index : Int) (job : UploadJob) :
    (MarkFileStarted now index job).files.length = job.files.length := by
  unfold MarkFileStarted
  rw [withJob_files]
  exact modifySlot_files_length _ _ _

theorem updateFileProgress_files_length (now : Nat) (index : Int)
    (step message : String) (current total : Int) (job : UploadJob) :
    (UpdateFileProgress now index step message current total job).files.length =
      job.files.length := by
  unfold UpdateFileProgress
  rw [withJob_files]
  exact modifySlot_files_length _ _ _

theorem markFileComplete_files (now : Nat) (index : Int) (result : DocumentResult)
    (job : UploadJob) :
    (MarkFileComplete now index result job).files = (job.modifySlot index (fun file =>
      { file with
          status := FileStatusComplete, step := "complete",
          message := "Processing complete", current := 100, total := 100,
          percent := 100, result := some result, error := "" })).files := rfl

theorem markFileError_files (now : Nat) (index : Int) (message : String)
    (result : DocumentResult) (job : UploadJob) :
    (MarkFileError now index message result job).files = (job.modifySlot index (fun file =>
      { file with
          status := FileStatusError, step := "error",
          message := if trimSpace message = "" then "processing error"
                     else trimSpace message,
          error := if trimSpace message = "" then "processing error"
                   else trimSpace message,
          current := 100, total := 100, percent := 100,
          result := some result })).files := rfl

theorem markFileComplete_files_length (now : Nat) (index : Int)
    (result : DocumentResult) (job : UploadJob) :
    (MarkFileComplete now index result job).files.length = job.files.length := by
  rw [markFileComplete_files]
  exact modifySlot_files_length _ _ _

theorem markFileError_files_length (now : Nat) (index : Int) (message : String)
    (result : DocumentResult) (job : UploadJob) :
    (MarkFileError now index message result job).files.length = job.files.length := by
  rw [markFileError_files]
  exact modifySlot_files_length _ _ _

theorem applyUpdates_files_length (now : Nat) (index : Int)
    (updates : List ProgressUpdate) (job : UploadJob) :
    (applyUpdates now index updates job).files.length = job.files.length := by
  induction updates generalizing job with
  | nil => rfl
  | cons u us ih =>
    show (applyUpdates now index us
      (UpdateFileProgress now index u.step u.message u.current u.total job)).files.length =
        job.files.length
    rw [ih, updateFileProgress_files_length]

theorem markFileStarted_get_other (now : Nat) (index : Int) (job : UploadJob)
    (j : Nat) (hj : ¬(0 ≤ index ∧ index.toNat = j)) :
    (MarkFileStarted now index job).files[j]? = job.files[j]? := by
  unfold MarkFileStarted
  rw [withJob_files]
  exact modifySlot_get_other _ _ _ _ hj

theorem updateFileProgress_get_other (now : Nat) (index : Int)
    (step message : String) (current total : Int) (job : UploadJob)
    (j : Nat) (hj : ¬(0 ≤ index ∧ index.toNat = j)) :
    (UpdateFileProgress now index step message current total job).files[j]? =
      job.files[j]? := by
  unfold UpdateFileProgress
  rw [withJob_files]
  exact modifySlot_get_other _ _ _ _ hj

theorem markFileComplete_get_other (now : Nat) (index : Int)
    (result : DocumentResult) (job : UploadJob)
    (j : Nat) (hj : ¬(0 ≤ index ∧ index.toNat = j)) :
    (MarkFileComplete now index result job).files[j]? = job.files[j]? := by
  rw [markFileComplete_files]
  exact modifySlot_get_other _ _ _ _ hj

theorem markFileError_get_other (now : Nat) (index : Int) (message : String)
    (result : DocumentResult) (job : UploadJob)
    (j : Nat) (hj : ¬(0 ≤ index ∧ index.toNat = j)) :
    (MarkFileError now index message result job).files[j]? = job.files[j]? := by
  rw [markFileError_files]
  exact modifySlot_get_other _ _ _ _ hj

theorem applyUpdates_get_other (now : Nat) (index : Int)
    (updates : List ProgressUpdate) (job : UploadJob)
    (j : Nat) (hj : ¬(0 ≤ index ∧ index.toNat = j)) :
    (applyUpdates now index updates job).files[j]? = job.files[j]? := by
  induction updates generalizing job with
  | nil => rfl
  | cons u us ih =>
    show (applyUpdates now index us
      (UpdateFileProgress now index u.step u.message u.current u.total job)).files[j]? =
        job.files[j]?
    rw [ih, updateFileProgress_get_other _ _ _ _ _ _ _ _ hj]

theorem uploadLoop_files_length (now : Nat) (outs : List FileOutcome)
    (idx : Nat) (job : UploadJob) :
    (uploadLoop now idx outs job).files.length = job.files.length := by
  induction outs generalizing idx job with
  | nil => rfl
  | cons o rest ih =>
    show (uploadLoop now (idx + 1) rest _).files.length = _
    rw [ih]
    cases o.outcome with
    | error e =>
      simp only [markFileError_files_length, applyUpdates_files_length,
        markFileStarted_files_length]
    | ok res =>
      simp only [markFileComplete_files_length, applyUpdates_files_length,
        markFileStarted_files_length]

theorem uploadLoop_get_lt (now : Nat) (outs : List FileOutcome)
    (idx : Nat) (job : UploadJob) (j : Nat) (hj : j < idx) :
    (uploadLoop now idx outs job).files[j]? = job.files[j]? := by
  induction outs generalizing idx job with
  | nil => rfl
  | cons o rest ih =>
    have hne : ¬(0 ≤ (Int.ofNat idx) ∧ (Int.ofNat idx).toNat = j) := by
      intro hc
      have hcc : idx = j := hc.2
      omega
    show (uploadLoop now (idx + 1) rest _).files[j]? = _
    rw [ih _ _ (by omega)]
    cases o.outcome with
    | error e =>
      rw [markFileError_get_other _ _ _ _ _ _ hne,
        applyUpdates_get_other _ _ _ _ _ hne, markFileStarted_get_other _ _ _ _ hne]
    | ok res =>
      rw [markFileComplete_get_other _ _ _ _ _ hne,
        applyUpdates_get_other _ _ _ _ _ hne, markFileStarted_get_other _ _ _ _ hne]


theorem uploadLoop_cons (now idx : Nat) (o : FileOutcome)
    (rest : List FileOutcome) (job : UploadJob) :
    uploadLoop now idx (o :: rest) job =
      uploadLoop now (idx + 1) rest
        (match o.outcome with
          | .error e => MarkFileError now (Int.ofNat idx) e.1 e.2
              (applyUpdates now (Int.ofNat idx) o.updates
                (MarkFileStarted now (Int.ofNat idx) job))
          | .ok res => MarkFileComplete now (Int.ofNat idx) res
              (applyUpdates now (Int.ofNat idx) o.updates
                (MarkFileStarted now (Int.ofNat idx) job))) := rfl

theorem uploadLoop_cons_error (now idx : Nat) (o : FileOutcome)
    (rest : List FileOutcome) (job : UploadJob) (e : String × DocumentResult)
    (ho : o.outcome = .error e) :
    uploadLoop now idx (o :: rest) job =
      uploadLoop now (idx + 1) rest
        (MarkFileError now (Int.ofNat idx) e.1 e.2
          (applyUpdates now (Int.ofNat idx) o.updates
            (MarkFileStarted now (Int.ofNat idx) job))) := by
  rw [uploadLoop_cons, ho]

theorem uploadLoop_cons_ok (now idx : Nat) (o : FileOutcome)
    (rest : List FileOutcome) (job : UploadJob) (res : DocumentResult)
    (ho : o.outcome = .ok res) :
    uploadLoop now idx (o :: rest) job =
      uploadLoop now (idx + 1) rest
        (MarkFileComplete now (Int.ofNat idx) res
          (applyUpdates now (Int.ofNat idx) o.updates
            (MarkFileStarted now (Int.ofNat idx) job))) := by
  rw [uploadLoop_cons, ho]

theorem uploadLoop_terminal (now : Nat) (outs : List FileOutcome)
    (idx : Nat) (job : UploadJob) (hlen : job.files.length = idx + outs.length)
    (j : Nat) (hij : idx ≤ j) (hj : j < job.files.length) :
    ((uploadLoop now idx outs job).files[j]?).map FileProgress.status =
        some FileStatusComplete ∨
    ((uploadLoop now idx outs job).files[j]?).map FileProgress.status =
        some FileStatusError := by
  induction outs generalizing idx job with
  | nil =>
    exact absurd hj (by simp at hlen; omega)
  | cons o rest ih =>
    simp only [List.length_cons] at hlen
    have h0 : (0 : Int) ≤ Int.ofNat idx := Int.ofNat_nonneg idx
    have hlen2 : (Int.ofNat idx).toNat <
        (applyUpdates now (Int.ofNat idx) o.updates
          (MarkFileStarted now (Int.ofNat idx) job)).files.length := by
      rw [applyUpdates_files_length, markFileStarted_files_length]
      show idx < _
      omega
    cases ho : o.outcome with
    | error e =>
      rw [uploadLoop_cons_error now idx o rest job e ho]
      by_cases hji : j = idx
      · subst hji
        right
        rw [uploadLoop_get_lt now rest (j + 1) _ j (by omega)]
        show Option.map FileProgress.status
          ((MarkFileError now (Int.ofNat j) e.1 e.2
            (applyUpdates now (Int.ofNat j) o.updates
              (MarkFileStarted now (Int.ofNat j) job))).files[(Int.ofNat j).toNat]?) =
          some FileStatusError
        rw [markFileError_slot _ _ _ _ _ h0 hlen2]
        rfl
      · apply ih
        · rw [markFileError_files_length, applyUpdates_files_length,
            markFileStarted_files_length]
          omega
        · omega
        · rw [markFileError_files_length, applyUpdates_files_length,
            markFileStarted_files_length]
          omega
    | ok res =>
      rw [uploadLoop_cons_ok now idx o rest job res ho]
      by_cases hji : j = idx
      · subst hji
        left
        rw [uploadLoop_get_lt now rest (j + 1) _ j (by omega)]
        show Option.map FileProgress.status
          ((MarkFileComplete now (Int.ofNat j) res
            (applyUpdates now (Int.ofNat j) o.updates
              (MarkFileStarted now (Int.ofNat j) job))).files[(Int.ofNat j).toNat]?) =
          some FileStatusComplete
        rw [markFileComplete_slot _ _ _ _ h0 hlen2]
        rfl
      · apply ih
        · rw [markFileComplete_files_length, applyUpdates_files_length,
            markFileStarted_files_length]
          omega
        · omega
        · rw [markFileComplete_files_length, applyUpdates_files_length,
            markFileStarted_files_length]
          omega

/-- C6: when the per-file loop of `runUploadJob` runs to the end, the job's
status is `complete` (never `failed`) whatever the per-file outcomes were:
every file slot ends in a terminal state (`complete` or `error`), errored
files are reported only through their slots (and the appended results), and
the loop contains no call to `MarkFailed`. -/
theorem runUploadJob_completes (id : String) (created now : Nat)
    (names : List String) (outcomes : List FileOutcome)
    (h : outcomes.length = names.length) :
    (runUploadJob now outcomes (CreateJob id created names)).status =
      JobStatusComplete ∧
    (runUploadJob now outcomes (CreateJob id created names)).status ≠
      JobStatusFailed ∧
    ∀ fp ∈ (runUploadJob now outcomes (CreateJob id created names)).files,
      fp.status = FileStatusComplete ∨ fp.status = FileStatusError := by
  have hstat : (runUploadJob now outcomes (CreateJob id created names)).status =
      JobStatusComplete := rfl
  refine ⟨hstat, by rw [hstat]; decide, ?_⟩
  intro fp hfp
  have hfiles : (runUploadJob now outcomes (CreateJob id created names)).files =
      (uploadLoop now 0 outcomes (MarkProcessing now (CreateJob id created names))).files :=
    rfl
  rw [hfiles] at hfp
  obtain ⟨j, hjlt, hfj⟩ := List.mem_iff_getElem.mp hfp
  have hlen0 : (MarkProcessing now (CreateJob id created names)).files.length =
      0 + outcomes.length := by
    show (CreateJob id created names).files.length = 0 + outcomes.length
    simp [CreateJob, h]
  have hjlt2 : j < (MarkProcessing now (CreateJob id created names)).files.length := by
    have := uploadLoop_files_length now outcomes 0
      (MarkProcessing now (CreateJob id created names))
    omega
  have hterm := uploadLoop_terminal now outcomes 0
    (MarkProcessing now (CreateJob id created names)) hlen0 j (Nat.zero_le j) hjlt2
  rw [List.getElem?_eq_getElem hjlt] at hterm
  cases hterm with
  | inl hc =>
    left
    have : fp.status = FileStatusComplete := by
      have hs : some ((uploadLoop now 0 outcomes
          (MarkProcessing now (CreateJob id created names))).files[j]).status =
          some FileStatusComplete := hc
      rw [hfj] at hs
      exact Option.some.inj hs
    exact this
  | inr hc =>
    right
    have hs : some ((uploadLoop now 0 outcomes
        (MarkProcessing now (CreateJob id created names))).files[j]).status =
        some FileStatusError := hc
    rw [hfj] at hs
    exact Option.some.inj hs

/-- C6 witness: a two-file job where the first file succeeds and the second
fails still completes with both slots terminal. -/
theorem runUploadJob_completes_witness :
    (runUploadJob 5
      [{ updates := [], outcome := .ok sampleResult },
       { updates := [{ step := "analyze", message := "working", current := 1,
                       total := 2 }],
         outcome := .error ("boom", sampleResult) }]
      (CreateJob "j" 0 ["a", "b"])).status = JobStatusComplete :=
  (runUploadJob_completes "j" 0 5 ["a", "b"]
    [{ updates := [], outcome := .ok sampleResult },
     { updates := [{ step := "analyze", message := "working", current := 1,
                     total := 2 }],
       outcome := .error ("boom", sampleResult) }] rfl).1

/-! ## Claims C2 and C3: the Analysis Client retry policy -/

/-- C2: with retry budget `maxRetries = 2` (3 total attempts), if the remote
endpoint fails retriably (e.g. with an HTTP 500) on the first two attempts
and succeeds with non-empty content on the third, `AnalyzeMultipleImages`
returns the successful text, makes exactly 3 remote calls, and sleeps
`attempt × 2` seconds before each retry: 2s before the first retry and 4s
before the second. -/
theorem analyze_retries_then_succeeds (remote : Nat → CallResult) (text : String)
    (h0 : attemptStep (remote 0) = .retriable)
    (h1 : attemptStep (remote 1) = .retriable)
    (h2 : attemptStep (remote 2) = .success text) :
    AnalyzeMultipleImages remote = (some text, 3, [2, 4]) := by
  unfold AnalyzeMultipleImages maxRetries
  show attemptsFrom remote 0 3 = (some text, 3, [2, 4])
  rw [attemptsFrom, h0]
  rw [attemptsFrom, h1]
  rw [attemptsFrom, h2]
  rfl

/-- C2 witness: a remote stub that returns HTTP 500 on the first two
attempts and a 200 with content "hello" on the third. -/
theorem analyze_retries_then_succeeds_witness :
    AnalyzeMultipleImages (fun n =>
      if n < 2 then CallResult.response { status := 500, choices := none }
      else CallResult.response { status := 200, choices := some ["hello"] }) =
      (some "hello", 3, [2, 4]) :=
  analyze_retries_then_succeeds _ "hello" (by decide) (by decide) (by decide)

/-- C3: a 4xx-class response (e.g. 401) on the first attempt makes
`AnalyzeMultipleImages` return an error after exactly one remote call with
no back-off sleep; and the classification retries exactly the non-4xx
failures: a transport error is retriable, a non-200 response is retriable
iff its status is outside [400, 500), an unmarshal failure, an empty choice
list and empty content are retriable. -/
theorem analyze_4xx_terminal (remote : Nat → CallResult) (r : VisionHTTPResponse)
    (hr : remote 0 = .response r) (h4 : 400 ≤ r.status) (h5 : r.status < 500) :
    AnalyzeMultipleImages remote = (none, 1, []) ∧
    attemptStep .transportError = .retriable ∧
    (∀ r' : VisionHTTPResponse, r'.status ≠ 200 →
      (attemptStep (.response r') = .retriable ↔
        ¬(400 ≤ r'.status ∧ r'.status < 500))) ∧
    (∀ r' : VisionHTTPResponse, r'.status = 200 → r'.choices = none →
      attemptStep (.response r') = .retriable) ∧
    (∀ r' : VisionHTTPResponse, r'.status = 200 → r'.choices = some [] →
      attemptStep (.response r') = .retriable) ∧
    (∀ (r' : VisionHTTPResponse) (rest : List String), r'.status = 200 →
      r'.choices = some ("" :: rest) →
      attemptStep (.response r') = .retriable) := by
  obtain ⟨st, ch⟩ := r
  refine ⟨?_, rfl, ?_, ?_, ?_, ?_⟩
  · have hstep : attemptStep (remote 0) = .fatal := by
      rw [hr]
      simp only [attemptStep]
      rw [if_pos (by simp at h4 h5 ⊢; omega), if_pos ⟨h4, h5⟩]
    unfold AnalyzeMultipleImages maxRetries
    show attemptsFrom remote 0 3 = (none, 1, [])
    rw [attemptsFrom, hstep]
    rfl
  · intro r' hne
    obtain ⟨st', ch'⟩ := r'
    simp only [attemptStep]
    rw [if_pos (by simpa using hne)]
    constructor
    · intro hret hc
      rw [if_pos hc] at hret
      exact StepResult.noConfusion hret
    · intro hc
      rw [if_neg hc]
  · intro r' h200 hch
    obtain ⟨st', ch'⟩ := r'
    simp only at h200 hch
    subst h200
    subst hch
    rfl
  · intro r' h200 hch
    obtain ⟨st', ch'⟩ := r'
    simp only at h200 hch
    subst h200
    subst hch
    rfl
  · intro r' rest h200 hch
    obtain ⟨st', ch'⟩ := r'
    simp only at h200 hch
    subst h200
    subst hch
    rfl

/-- C3 witness: a remote stub returning 401 on every call. -/
theorem analyze_4xx_terminal_witness :
    AnalyzeMultipleImages (fun _ =>
      CallResult.response { status := 401, choices := none }) = (none, 1, []) :=
  (analyze_4xx_terminal _ { status := 401, choices := none } rfl
    (by decide) (by decide)).1

/-! ## Claim C1: batch partitioning and order-preserving aggregation -/

theorem mkBatch_pages (i : Nat) (bp : List PDFPageImage) :
    (mkBatch i bp).pages = bp := rfl

theorem mkBatch_pageNumbers (i : Nat) (bp : List PDFPageImage) :
    (mkBatch i bp).pageNumbers = bp.map PDFPageImage.pageNumber := rfl

theorem makeBatchesFrom_nil (k fuel i : Nat) : makeBatchesFrom k fuel i [] = [] := by
  cases fuel <;> rfl

theorem makeBatchesFrom_cons (k n i : Nat) (p : PDFPageImage)
    (rest : List PDFPageImage) :
    makeBatchesFrom k (n + 1) i (p :: rest) =
      mkBatch i (p :: rest.take (k - 1)) ::
        makeBatchesFrom k n (i + (p :: rest.take (k - 1)).length)
          (rest.drop (k - 1)) := rfl

theorem makeBatchesFrom_pages_flatten (k : Nat) (n : Nat) :
    ∀ (l : List PDFPageImage), l.length ≤ n → ∀ i,
      ((makeBatchesFrom k n i l).map Batch.pages).flatten = l := by
  induction n with
  | zero =>
    intro l hl i
    cases l with
    | nil => simp [makeBatchesFrom_nil]
    | cons p rest => simp at hl
  | succ n ih =>
    intro l hl i
    cases l with
    | nil => simp [makeBatchesFrom_nil]
    | cons p rest =>
      simp only [List.length_cons] at hl
      rw [makeBatchesFrom_cons]
      simp only [List.map_cons, List.flatten_cons, mkBatch_pages]
      rw [ih (rest.drop (k - 1)) (by simp [List.length_drop]; omega) _]
      show p :: (rest.take (k - 1) ++ rest.drop (k - 1)) = p :: rest
      rw [List.take_append_drop]

theorem makeBatchesFrom_sizes (k : Nat) (hk : 1 ≤ k) (n : Nat) :
    ∀ (l : List PDFPageImage), l.length ≤ n → ∀ i,
      ∀ b ∈ makeBatchesFrom k n i l, 1 ≤ b.pages.length ∧ b.pages.length ≤ k := by
  induction n with
  | zero =>
    intro l hl i b hb
    cases l with
    | nil => rw [makeBatchesFrom_nil] at hb; exact absurd hb (List.not_mem_nil b)
    | cons p rest => simp at hl
  | succ n ih =>
    intro l hl i b hb
    cases l with
    | nil => rw [makeBatchesFrom_nil] at hb; exact absurd hb (List.not_mem_nil b)
    | cons p rest =>
      simp only [List.length_cons] at hl
      rw [makeBatchesFrom_cons] at hb
      cases hb with
      | head =>
        constructor
        · simp [mkBatch_pages]
        · rw [mkBatch_pages]
          simp only [List.length_cons]
          have := List.length_take_le (k - 1) rest
          omega
      | tail _ hb2 =>
        exact ih (rest.drop (k - 1)) (by simp [List.length_drop]; omega) _ b hb2

theorem runBatchTasks_foldl_length (analysis : Nat → Batch → String)
    (batches : List Batch) (order : List Nat) (acc : List (Option String)) :
    (order.foldl (fun acc idx =>
      match batches[idx]? with
      | none => acc
      | some b => acc.set idx (some (formatBatchResult b (analysis idx b)))) acc).length =
      acc.length := by
  induction order generalizing acc with
  | nil => rfl
  | cons idx rest ih =>
    rw [List.foldl_cons, ih]
    cases h : batches[idx]? with
    | none => rfl
    | some b => exact List.length_set acc idx _

theorem runBatchTasks_foldl_get_other (analysis : Nat → Batch → String)
    (batches : List Batch) (order : List Nat) (acc : List (Option String))
    (j : Nat) (hj : j ∉ order) :
    (order.foldl (fun acc idx =>
      match batches[idx]? with
      | none => acc
      | some b => acc.set idx (some (formatBatchResult b (analysis idx b)))) acc)[j]? =
      acc[j]? := by
  induction order generalizing acc with
  | nil => rfl
  | cons idx rest ih =>
    rw [List.foldl_cons]
    rw [ih _ (fun hmem => hj (List.mem_cons_of_mem idx hmem))]
    cases h : batches[idx]? with
    | none => rfl
    | some b =>
      refine List.getElem?_set_ne ?_
      intro he
      subst he
      exact hj (List.mem_cons_self idx rest)

theorem runBatchTasks_foldl_get_mem (analysis : Nat → Batch → String)
    (batches : List Batch) (j : Nat) (hjlt : j < batches.length) :
    ∀ (order : List Nat) (acc : List (Option String)),
      order.Nodup → acc.length = batches.length → j ∈ order →
      (order.foldl (fun acc idx =>
        match batches[idx]? with
        | none => acc
        | some b => acc.set idx (some (formatBatchResult b (analysis idx b)))) acc)[j]? =
        some (some (formatBatchResult (batches.get ⟨j, hjlt⟩)
          (analysis j (batches.get ⟨j, hjlt⟩)))) := by
  intro order
  induction order with
  | nil =>
    intro acc _ _ hmem
    exact absurd hmem (List.not_mem_nil j)
  | cons idx rest ih =>
    intro acc hnd hlen hmem
    rw [List.foldl_cons]
    by_cases hji : j = idx
    · subst hji
      rw [runBatchTasks_foldl_get_other analysis batches rest _ j
        (List.nodup_cons.mp hnd).1]
      rw [List.getElem?_eq_getElem hjlt]
      show (acc.set j (some (formatBatchResult (batches.get ⟨j, hjlt⟩)
        (analysis j (batches.get ⟨j, hjlt⟩)))))[j]? = _
      rw [List.getElem?_set_self (by omega)]
    · have hmem2 : j ∈ rest := by
        cases hmem with
        | head => exact absurd rfl hji
        | tail _ hm => exact hm
      have hlen2 : (match batches[idx]? with
          | none => acc
          | some b =>
            acc.set idx (some (formatBatchResult b (analysis idx b)))).length =
          batches.length := by
        cases h : batches[idx]? with
        | none => exact hlen
        | some b => rw [List.length_set]; exact hlen
      exact ih _ (List.nodup_cons.mp hnd).2 hlen2 hmem2

theorem runBatchTasks_perm (analysis : Nat → Batch → String) (batches : List Batch)
    (order : List Nat) (hperm : order.Perm (List.range batches.length)) :
    runBatchTasks analysis batches order =
      batches.enum.map (fun p => some (formatBatchResult p.2 (analysis p.1 p.2))) := by
  have hnd : order.Nodup := hperm.nodup_iff.mpr (List.nodup_range _)
  apply List.ext_getElem?
  intro j
  by_cases hj : j < batches.length
  · have hmem : j ∈ order := hperm.mem_iff.mpr (List.mem_range.mpr hj)
    unfold runBatchTasks
    rw [runBatchTasks_foldl_get_mem analysis batches j hj order
      (List.replicate batches.length none) hnd (List.length_replicate _ _) hmem]
    rw [List.getElem?_map, List.getElem?_enum, List.getElem?_eq_getElem hj]
    rfl
  · unfold runBatchTasks
    rw [List.getElem?_eq_none (l := batches.enum.map _) (by simp; omega)]
    apply List.getElem?_eq_none
    rw [runBatchTasks_foldl_length, List.length_replicate]
    omega

theorem collectAnalyses_cons (x : Option String) (rest : List (Option String)) :
    collectAnalyses (x :: rest) =
      match x, collectAnalyses rest with
      | some s, some l => some (s :: l)
      | _, _ => none := rfl

theorem collectAnalyses_map_some (l : List String) :
    collectAnalyses (l.map some) = some l := by
  induction l with
  | nil => rfl
  | cons s rest ih =>
    rw [List.map_cons, collectAnalyses_cons, ih]

theorem combinedAnalysisText_success (analysis : Nat → Batch → String)
    (k : Nat) (pages : List PDFPageImage) (order : List Nat)
    (hperm : order.Perm (List.range (makeBatches k pages).length)) :
    combinedAnalysisText analysis k pages order =
      some (String.intercalate "\n\n" ((makeBatches k pages).enum.map
        (fun p => formatBatchResult p.2 (analysis p.1 p.2)))) := by
  unfold combinedAnalysisText
  rw [runBatchTasks_perm _ _ _ hperm]
  have hmm : (makeBatches k pages).enum.map
      (fun p => some (formatBatchResult p.2 (analysis p.1 p.2))) =
      ((makeBatches k pages).enum.map
        (fun p => formatBatchResult p.2 (analysis p.1 p.2))).map some := by
    rw [List.map_map]
    rfl
  rw [hmm, collectAnalyses_map_some]
  rfl

theorem head?_eq_headD (l : List Nat) (h : l ≠ []) : l.head? = some (l.headD 0) := by
  cases l with
  | nil => exact absurd rfl h
  | cons x xs => rfl

theorem getLast?_eq_getLastD (l : List Nat) (h : l ≠ []) :
    l.getLast? = some (l.getLastD 0) := by
  induction l with
  | nil => exact absurd rfl h
  | cons x xs ih =>
    cases xs with
    | nil => rfl
    | cons y ys =>
      rw [List.getLast?_cons_cons]
      rw [ih (by simp)]
      rw [List.getLastD_cons, List.getLastD_cons, List.getLastD_cons]

theorem chain_le_getLastD (xs : List Nat) :
    ∀ x, List.Chain (· < ·) x xs → x ≤ xs.getLastD x := by
  induction xs with
  | nil => intro x _; exact Nat.le_refl x
  | cons y ys ih =>
    intro x hc
    rw [List.chain_cons] at hc
    rw [List.getLastD_cons]
    exact Nat.le_trans (Nat.le_of_lt hc.1) (ih y hc.2)

theorem chain_headD_le_getLastD (l : List Nat) (h : l ≠ [])
    (hc : l.Chain' (· < ·)) : l.headD 0 ≤ l.getLastD 0 := by
  cases l with
  | nil => exact absurd rfl h
  | cons x xs =>
    show x ≤ (x :: xs).getLastD 0
    rw [List.getLastD_cons]
    exact chain_le_getLastD xs x hc

theorem chain_ranges (parts : List (List Nat)) (hne : ∀ p ∈ parts, p ≠ [])
    (hchain : parts.flatten.Chain' (· < ·)) :
    (∀ p ∈ parts, p.headD 0 ≤ p.getLastD 0) ∧
    (parts.map (fun p => (p.headD 0, p.getLastD 0))).Chain'
      (fun a b => a.2 < b.1) := by
  induction parts with
  | nil =>
    exact ⟨fun p hp => absurd hp (List.not_mem_nil p), List.chain'_nil⟩
  | cons p rest ih =>
    rw [List.flatten_cons, List.chain'_append] at hchain
    obtain ⟨hcp, hcrest, hlink⟩ := hchain
    have hpne : p ≠ [] := hne p (List.mem_cons_self p rest)
    have ihr := ih (fun q hq => hne q (List.mem_cons_of_mem p hq)) hcrest
    constructor
    · intro q hq
      cases hq with
      | head => exact chain_headD_le_getLastD p hpne hcp
      | tail _ hq2 => exact ihr.1 q hq2
    · rw [List.map_cons]
      cases rest with
      | nil => exact List.chain'_singleton _
      | cons q rest2 =>
        have hqne : q ≠ [] := hne q (List.mem_cons_of_mem p (List.mem_cons_self q rest2))
        rw [List.map_cons]
        rw [List.chain'_cons]
        constructor
        · apply hlink
          · rw [getLast?_eq_getLastD p hpne]
            rfl
          · rw [List.flatten_cons, List.head?_append, head?_eq_headD q hqne]
            rfl
        · exact ihr.2

theorem makeBatchesFrom_pageNumbers_flatten (k : Nat) (n : Nat) :
    ∀ (l : List PDFPageImage), l.length ≤ n → ∀ i,
      ((makeBatchesFrom k n i l).map Batch.pageNumbers).flatten =
        l.map PDFPageImage.pageNumber := by
  induction n with
  | zero =>
    intro l hl i
    cases l with
    | nil => simp [makeBatchesFrom_nil]
    | cons p rest => simp at hl
  | succ n ih =>
    intro l hl i
    cases l with
    | nil => simp [makeBatchesFrom_nil]
    | cons p rest =>
      simp only [List.length_cons] at hl
      rw [makeBatchesFrom_cons]
      simp only [List.map_cons, List.flatten_cons, mkBatch_pageNumbers]
      rw [ih (rest.drop (k - 1)) (by simp [List.length_drop]; omega) _]
      show (p :: rest.take (k - 1)).map PDFPageImage.pageNumber ++
          (rest.drop (k - 1)).map PDFPageImage.pageNumber =
        (p :: rest).map PDFPageImage.pageNumber
      rw [← List.map_append]
      rw [show (p :: rest.take (k - 1)) ++ rest.drop (k - 1) = p :: rest by
        show p :: (rest.take (k - 1) ++ rest.drop (k - 1)) = p :: rest
        rw [List.take_append_drop]]

theorem makeBatches_ne_nil (k : Nat) (pages : List PDFPageImage)
    (hp : 1 ≤ pages.length) : makeBatches k pages ≠ [] := by
  cases pages with
  | nil => simp at hp
  | cons p rest =>
    show makeBatchesFrom k (p :: rest).length 0 (p :: rest) ≠ []
    rw [List.length_cons, makeBatchesFrom_cons]
    exact List.cons_ne_nil _ _

theorem makeBatchesFrom_pageNumbers_shape (k : Nat) (n : Nat) :
    ∀ (l : List PDFPageImage), l.length ≤ n → ∀ i,
      ∀ b ∈ makeBatchesFrom k n i l,
        b.pageNumbers = b.pages.map PDFPageImage.pageNumber := by
  induction n with
  | zero =>
    intro l hl i b hb
    cases l with
    | nil => rw [makeBatchesFrom_nil] at hb; exact absurd hb (List.not_mem_nil b)
    | cons p rest => simp at hl
  | succ n ih =>
    intro l hl i b hb
    cases l with
    | nil => rw [makeBatchesFrom_nil] at hb; exact absurd hb (List.not_mem_nil b)
    | cons p rest =>
      simp only [List.length_cons] at hl
      rw [makeBatchesFrom_cons] at hb
      cases hb with
      | head => rfl
      | tail _ hb2 =>
        exact ih (rest.drop (k - 1)) (by simp [List.length_drop]; omega) _ b hb2

/-- C1: for every document of at least one page image, the Batch Analysis
Engine partitions the page sequence into consecutive, contiguous, nonempty
batches of at most the fixed maximum size (`topicBatchSize = 8` pages for
topic extraction, `flashcardBatchSize = 2` for flashcard extraction),
covering every page exactly once in original order; and when every batch's
analysis succeeds, whatever order the batch tasks finish in (any
permutation of the batch indices), the combined text is the
`"\n\n"`-join of the per-batch texts in batch order, each prefixed with its
`"=== Pages a-b ==="` marker; with the renderer's consecutive 1-based page
numbering (any strictly increasing numbering), each marker's range is
well-formed (`a ≤ b`) and the markers appear in strictly increasing page
order. -/
theorem batchEngine_spec (k : Nat)
    (hk : k = topicBatchSize ∨ k = flashcardBatchSize)
    (pages : List PDFPageImage) (hp : 1 ≤ pages.length)
    (analysis : Nat → Batch → String) (order : List Nat)
    (hperm : order.Perm (List.range (makeBatches k pages).length))
    (hmono : (pages.map PDFPageImage.pageNumber).Chain' (· < ·)) :
    ((makeBatches k pages).map Batch.pages).flatten = pages ∧
    (∀ b ∈ makeBatches k pages, 1 ≤ b.pages.length ∧ b.pages.length ≤ k) ∧
    makeBatches k pages ≠ [] ∧
    combinedAnalysisText analysis k pages order =
      some (String.intercalate "\n\n" ((makeBatches k pages).enum.map
        (fun p => formatBatchResult p.2 (analysis p.1 p.2)))) ∧
    (∀ b ∈ makeBatches k pages,
      b.pageNumbers.headD 0 ≤ b.pageNumbers.getLastD 0) ∧
    ((makeBatches k pages).map
        (fun b => (b.pageNumbers.headD 0, b.pageNumbers.getLastD 0))).Chain'
      (fun a b => a.2 < b.1) := by
  have hk1 : 1 ≤ k := by
    rcases hk with h | h
    · subst h; decide
    · subst h; decide
  have hsize := makeBatchesFrom_sizes k hk1 pages.length pages (Nat.le_refl _) 0
  have hshape := makeBatchesFrom_pageNumbers_shape k pages.length pages
    (Nat.le_refl _) 0
  have hpn := makeBatchesFrom_pageNumbers_flatten k pages.length pages
    (Nat.le_refl _) 0
  have hne : ∀ q ∈ (makeBatches k pages).map Batch.pageNumbers, q ≠ [] := by
    intro q hq
    rw [List.mem_map] at hq
    obtain ⟨b, hb, rfl⟩ := hq
    rw [hshape b hb]
    intro hcon
    have h1 := (hsize b hb).1
    rw [List.map_eq_nil_iff.mp hcon] at h1
    simp at h1
  have hflatpn : ((makeBatches k pages).map Batch.pageNumbers).flatten.Chain'
      (· < ·) := by
    show ((makeBatchesFrom k pages.length 0 pages).map
      Batch.pageNumbers).flatten.Chain' (· < ·)
    rw [hpn]
    exact hmono
  have hranges := chain_ranges ((makeBatches k pages).map Batch.pageNumbers)
    hne hflatpn
  refine ⟨makeBatchesFrom_pages_flatten k pages.length pages (Nat.le_refl _) 0,
    hsize, makeBatches_ne_nil k pages hp,
    combinedAnalysisText_success analysis k pages order hperm, ?_, ?_⟩
  · intro b hb
    exact hranges.1 b.pageNumbers (List.mem_map_of_mem Batch.pageNumbers hb)
  · have h2 := hranges.2
    rw [List.map_map] at h2
    exact h2

/-- C1 witness: a concrete five-page document batched for flashcard
extraction (`flashcardBatchSize = 2`), with the middle batch finishing
first (completion order 2, 0, 1): the combined text still lists the
batches in page order with increasing markers. -/
theorem batchEngine_spec_witness :
    combinedAnalysisText (fun _ _ => "A") flashcardBatchSize samplePages
        [2, 0, 1] =
      some ("=== Pages 1-2 ===\nA\n\n=== Pages 3-4 ===\nA\n\n=== Pages 5-5 ===\nA") := by
  have h := batchEngine_spec flashcardBatchSize (Or.inr rfl) samplePages
    (by decide) (fun _ _ => "A") [2, 0, 1] (by decide)
    (by
      show List.Chain (· < ·) 1 [2, 3, 4, 5]
      exact List.Chain.cons (by decide) (List.Chain.cons (by decide)
        (List.Chain.cons (by decide)
          (List.Chain.cons (by decide) List.Chain.nil))))
  rw [h.2.2.2.1]
  decide
